import Mathlib

/-!
# Priority-based task scheduler (`final_project_1.cpp`)

A shallow embedding of the order manager of `final_project_1.cpp`: the three-key
comparator `CompareCustomer`, the customer registry (`getCustomerId`), the order
accumulator (`processCustomer`) and the drain loop (`processOrders`), followed by
the properties of the specification that are checked against them.

Conventions of the embedding.

* C++ `int` values are `Int`.  The only arithmetic on them is `rand() % 9000 + 1000`
  (which cannot overflow) and the running sum `totalCost += price`.  The sum is embedded
  twice: `processItem` and `processCustomer` add over the unbounded integers, which is
  what the program does as long as the sum fits an `int`; `processItemInt32` and
  `processCustomerInt32` wrap the sum around at 32 bits, which is what the program as
  built does beyond that (signed overflow is undefined behaviour in the language).
  `processCustomerInt32_eq` relates the two, and `accumulate_le` shows that with the
  program's menu the sum stays within `30 * foodItems.length`, so that they differ only
  on orders of more than 71 million items.
* `std::unordered_map<K, V>` is the list of its key/value nodes, with unique keys.  The
  order of the list stands for the iteration order, which the language leaves
  unspecified: `mapAssign` puts a new node last, an implementation may put it anywhere.
  What the scan of the registry in `processOrders` finds is therefore stated for every
  order of the registry, never for the order of the list alone.
* `std::priority_queue<T, vector<T>, CompareCustomer>` is modelled by its contract:
  the list of the stored entries, `top()` being the entry that the comparator puts
  below no other stored entry.
* `std::cout`, `customers.txt` and `rand()` are explicit: the text written so far,
  the lines appended so far, and a stream `rand : Nat → Nat` with a call counter.
-/

namespace Scheduler

/-! ## Library containers -/

/-- The lookup `m.find(k)` of an `unordered_map`: `none` stands for `m.end()`. -/
def mapFind {K V : Type} [DecidableEq K] : List (K × V) → K → Option V
  | [], _ => none
  | (k', v) :: rest, k => if k' = k then some v else mapFind rest k

/-- The access `m[k]` of an `unordered_map`, read as an rvalue: the mapped value, and the
map afterwards, which gains a value-initialised node when the key is absent. -/
def mapIndex {K V : Type} [DecidableEq K] [Inhabited V] (m : List (K × V)) (k : K) :
    V × List (K × V) :=
  match mapFind m k with
  | some v => (v, m)
  | none => (default, m ++ [(k, default)])

/-- The assignment `m[k] = v` of an `unordered_map`: overwrite the node of `k`, or add one.
The new node is put last in the list; where an implementation puts it in the iteration
order is unspecified. -/
def mapAssign {K V : Type} [DecidableEq K] : List (K × V) → K → V → List (K × V)
  | [], k, v => [(k, v)]
  | (k', v') :: rest, k, v =>
    if k' = k then (k', v) :: rest else (k', v') :: mapAssign rest k v

/-- An element of the queue, `pair<int, pair<int, int>>`:
`(customerId, (totalCost, maxPrepTime))`. -/
abbrev Entry := Int × (Int × Int)

/-- The comparator `CompareCustomer::operator()`. -/
def CompareCustomer (a b : Entry) : Bool :=
  if a.2.1 ≠ b.2.1 then decide (a.2.1 < b.2.1)
  else if a.2.2 ≠ b.2.2 then decide (a.2.2 > b.2.2)
  else decide (a.1 < b.1)

/-- The call `customerPriorityQueue.push(e)`. -/
def pqPush (q : List Entry) (e : Entry) : List Entry := q ++ [e]

/-- The call `customerPriorityQueue.top()`: the stored entry that `CompareCustomer` puts
below no other one; `none` on the empty queue. -/
def pqTop : List Entry → Option Entry
  | [] => none
  | x :: xs => some (xs.foldl (fun best y => if CompareCustomer best y then y else best) x)

/-- Remove one occurrence of `t` from the stored entries. -/
def removeEntry (t : Entry) : List Entry → List Entry
  | [] => []
  | x :: xs => if x = t then xs else x :: removeEntry t xs

/-- The call `customerPriorityQueue.pop()`: remove the top entry. -/
def pqPop (q : List Entry) : List Entry :=
  match pqTop q with
  | none => q
  | some t => removeEntry t q

/-! ## The order manager -/

/-- The state of an `OrderManager` together with the environment it acts on.  The member
`customerOrders` is never read or written by the program and is left out. -/
structure OrderManager where
  /-- The member `registeredCustomers`: name to customer ID. -/
  registeredCustomers : List (String × Int)
  /-- The member `menu`: item to (price, preparation time). -/
  menu : List (String × (Int × Int))
  /-- The member `customerPriorityQueue`. -/
  customerPriorityQueue : List Entry
  /-- The lines appended to `customers.txt` since the manager was constructed. -/
  customersTxt : List String
  /-- Whether `customers.txt` can be opened for appending. -/
  customersTxtWritable : Bool
  /-- The number of calls of `rand()` made so far. -/
  randCalls : Nat
  /-- The text written to `std::cout`, one element per output statement. -/
  cout : List String
  deriving DecidableEq, Repr

/-- The default member initialiser of `menu`. -/
def initialMenu : List (String × (Int × Int)) :=
  [("Steak", (25, 30)),
   ("Burger", (15, 20)),
   ("Salad", (12, 10)),
   ("Lobster", (30, 40)),
   ("Pizza", (20, 25)),
   ("Pasta", (18, 20)),
   ("Sushi", (22, 15)),
   ("Tacos", (10, 10)),
   ("Soup", (8, 5)),
   ("Steak Fries", (12, 15)),
   ("Ice Cream", (5, 5)),
   ("Chicken Wings", (18, 20)),
   ("Caesar Salad", (14, 12)),
   ("Grilled Cheese", (10, 8)),
   ("Spaghetti", (16, 25)),
   ("Spring Rolls", (9, 10)),
   ("BBQ Ribs", (28, 35))]

/-- The function `loadCustomersFromFile`.  The file is given by the `(name, id)` pairs that
the loop `while (inFile >> name >> id)` extracts from it, in order; `none` is a file that
cannot be opened. -/
def loadCustomersFromFile (file : Option (List (String × Int)))
    (registeredCustomers : List (String × Int)) : List (String × Int) :=
  match file with
  | none => registeredCustomers
  | some records => records.foldl (fun reg r => mapAssign reg r.1 r.2) registeredCustomers

/-- The constructor `OrderManager()`: seeds the random source and loads the registry. -/
def OrderManager.init (file : Option (List (String × Int))) (writable : Bool) : OrderManager :=
  { registeredCustomers := loadCustomersFromFile file []
    menu := initialMenu
    customerPriorityQueue := []
    customersTxt := []
    customersTxtWritable := writable
    randCalls := 0
    cout := [] }

/-- The function `saveCustomerToFile`. -/
def saveCustomerToFile (s : OrderManager) (customerName : String) (customerId : Int) :
    OrderManager :=
  if s.customersTxtWritable then
    { s with customersTxt := s.customersTxt ++ [customerName ++ " " ++ toString customerId ++ "\n"] }
  else s

/-- The function `getCustomerId`; `rand k` is the value of the `k`-th call of `rand()`. -/
def getCustomerId (rand : Nat → Nat) (s : OrderManager) (customerName : String) :
    Int × OrderManager :=
  match mapFind s.registeredCustomers customerName with
  | none =>
    let customerId : Int := (rand s.randCalls : Int) % 9000 + 1000
    let s1 := { s with
      randCalls := s.randCalls + 1
      registeredCustomers := mapAssign s.registeredCustomers customerName customerId }
    let s2 := saveCustomerToFile s1 customerName customerId
    (customerId, { s2 with cout := s2.cout ++
      ["Welcome new customer " ++ customerName ++ "! Your unique ID: " ++
        toString customerId ++ "\n"] })
  | some _ =>
    let r := mapIndex s.registeredCustomers customerName
    (r.1, { s with
      registeredCustomers := r.2
      cout := s.cout ++
        ["Welcome back " ++ customerName ++ "! Your unique ID: " ++ toString r.1 ++ "\n"] })

/-- The state of the loop of `processCustomer`: the manager and the locals `totalCost`
and `maxPrepTime`. -/
structure OrderAcc where
  /-- The manager. -/
  mgr : OrderManager
  /-- The local `totalCost`. -/
  totalCost : Int
  /-- The local `maxPrepTime`. -/
  maxPrepTime : Int
  deriving DecidableEq, Repr

/-- One iteration of the loop `for (const string& item : foodItems)` of `processCustomer`,
with `totalCost += price` over the unbounded integers (see `processItemInt32` for the sum
in a 32-bit `int`). -/
def processItem (customerName : String) (a : OrderAcc) (item : String) : OrderAcc :=
  match mapFind a.mgr.menu item with
  | none =>
    { a with mgr := { a.mgr with
        cout := a.mgr.cout ++ ["Menu item " ++ item ++ " is unavailable.\n"] } }
  | some _ =>
    let r1 := mapIndex a.mgr.menu item
    let price := r1.1.1
    let r2 := mapIndex r1.2 item
    let prepTime := r2.1.2
    { mgr := { a.mgr with
        menu := r2.2
        cout := a.mgr.cout ++
          ["Order placed for customer " ++ customerName ++ ": " ++ item ++ " ($" ++
            toString price ++ ", " ++ toString prepTime ++ " mins).\n"] }
      totalCost := a.totalCost + price
      maxPrepTime := max a.maxPrepTime prepTime }

/-- The function `processCustomer`, with the sum over the unbounded integers. -/
def processCustomer (rand : Nat → Nat) (s : OrderManager) (customerName : String)
    (foodItems : List String) : OrderManager :=
  let r := getCustomerId rand s customerName
  let a := foodItems.foldl (processItem customerName)
    { mgr := r.2, totalCost := 0, maxPrepTime := 0 }
  { a.mgr with
    customerPriorityQueue :=
      pqPush a.mgr.customerPriorityQueue (r.1, (a.totalCost, a.maxPrepTime)) }

/-- The body of the loop of `processOrders` after `top()` and `pop()`: the scan of the
registry for the first name holding the ID, and the notice if there is one. -/
def reportOrder (s : OrderManager) (customer : Entry) : OrderManager :=
  let customerId := customer.1
  let totalCost := customer.2.1
  let maxPrepTime := customer.2.2
  match s.registeredCustomers.find? (fun entry => decide (entry.2 = customerId)) with
  | some entry =>
    { s with cout := s.cout ++
      ["Processing order for " ++ entry.1 ++ ": Total cost $" ++ toString totalCost ++
        ", Max prep time " ++ toString maxPrepTime ++ " mins.\n"] }
  | none => s

/-- The loop `while (!customerPriorityQueue.empty())` of `processOrders`, run for at most
`fuel` iterations: the final state and the entries popped, in order; `none` when the
iterations allowed do not empty the queue. -/
def processOrdersLoop : Nat → OrderManager → List Entry → Option (OrderManager × List Entry)
  | fuel, s, popped =>
    match pqTop s.customerPriorityQueue with
    | none => some (s, popped)
    | some customer =>
      match fuel with
      | 0 => none
      | fuel + 1 =>
        processOrdersLoop fuel
          (reportOrder { s with customerPriorityQueue := pqPop s.customerPriorityQueue } customer)
          (popped ++ [customer])

/-- The function `processOrders`: the final state and the sequence of popped entries. -/
def processOrders (s : OrderManager) : Option (OrderManager × List Entry) :=
  processOrdersLoop s.customerPriorityQueue.length s []

/-! ## Auxiliary definitions used to state the properties -/

/-- The text that one iteration of the loop of `processCustomer` writes for `item`. -/
def itemNotice (menu : List (String × (Int × Int))) (customerName item : String) : String :=
  match mapFind menu item with
  | none => "Menu item " ++ item ++ " is unavailable.\n"
  | some e =>
    "Order placed for customer " ++ customerName ++ ": " ++ item ++ " ($" ++
      toString e.1 ++ ", " ++ toString e.2 ++ " mins).\n"

/-- The menu entries of the elements of `foodItems` that are menu keys, in order and with
multiplicity. -/
def validEntries (menu : List (String × (Int × Int))) (foodItems : List String) :
    List (Int × Int) :=
  foodItems.filterMap (mapFind menu)

/-- The totals `(totalCost, maxPrepTime)` that the loop of `processCustomer` reaches from
`(0, 0)` over the menu entries of the ordered items. -/
def orderTotals (menu : List (String × (Int × Int))) (foodItems : List String) : Int × Int :=
  (((validEntries menu foodItems).map Prod.fst).sum,
   (validEntries menu foodItems).foldl (fun m e => max m e.2) 0)

/-- The notice, if any, that `processOrders` writes for a popped entry. -/
def orderNotice (registeredCustomers : List (String × Int)) (customer : Entry) : Option String :=
  (registeredCustomers.find? (fun entry => decide (entry.2 = customer.1))).map (fun entry =>
    "Processing order for " ++ entry.1 ++ ": Total cost $" ++ toString customer.2.1 ++
      ", Max prep time " ++ toString customer.2.2 ++ " mins.\n")

/-- A call of a public member function of `OrderManager`. -/
inductive Call where
  | getCustomerId (customerName : String)
  | processCustomer (customerName : String) (foodItems : List String)
  | processOrders
  deriving DecidableEq, Repr

/-- The state after one call. -/
def runCall (rand : Nat → Nat) (s : OrderManager) : Call → OrderManager
  | .getCustomerId customerName => (getCustomerId rand s customerName).2
  | .processCustomer customerName foodItems => processCustomer rand s customerName foodItems
  | .processOrders =>
    match processOrders s with
    | some r => r.1
    | none => s

/-- The state after a sequence of calls. -/
def runCalls (rand : Nat → Nat) (s : OrderManager) (calls : List Call) : OrderManager :=
  calls.foldl (runCall rand) s

/-- The order in which the specification lets two drained orders follow each other:
`a` may precede `b`. -/
def SpecDrainOrder (a b : Entry) : Prop :=
  a.2.1 > b.2.1 ∨ (a.2.1 = b.2.1 ∧ a.2.2 < b.2.2) ∨
    (a.2.1 = b.2.1 ∧ a.2.2 = b.2.2 ∧ a.1 < b.1) ∨
    (a.2.1 = b.2.1 ∧ a.2.2 = b.2.2 ∧ a.1 = b.1)

instance (a b : Entry) : Decidable (SpecDrainOrder a b) := by
  unfold SpecDrainOrder; infer_instance

/-! ## The item splitting of `main` -/

/-- The call `foodList.find(c)` of `std::string`: the index of the first `c`; `none` stands
for `string::npos`.  A `std::string` is the list of its characters. -/
def strFind (c : Char) : List Char → Option Nat
  | [] => none
  | x :: xs => if x = c then some 0 else (strFind c xs).map (fun pos => pos + 1)

/-- The loop `while ((pos = foodList.find(',')) != string::npos)` of `main`, run for at most
`fuel` iterations, on the locals `foodList` and `foodItems`: `substr(0, pos)` is `take pos`
and `erase(0, pos + 1)` is `drop (pos + 1)`; `none` when the iterations allowed do not
reach the end of the loop. -/
def splitLoop : Nat → List Char → List String → Option (List Char × List String)
  | fuel, foodList, foodItems =>
    match strFind ',' foodList with
    | none => some (foodList, foodItems)
    | some pos =>
      match fuel with
      | 0 => none
      | fuel + 1 =>
        splitLoop fuel (foodList.drop (pos + 1)) (foodItems ++ [String.mk (foodList.take pos)])

/-- The item splitting of `main`: the loop, then
`if (!foodList.empty()) foodItems.push_back(foodList)`. -/
def splitItems (foodList : String) : Option (List String) :=
  match splitLoop foodList.data.length foodList.data [] with
  | none => none
  | some r => some (if r.1.isEmpty then r.2 else r.2 ++ [String.mk r.1])

/-- One pass of the loop of `main` from the line of items on: the splitting, then
`manager.processCustomer(customerName, foodItems)`. -/
def takeOrder (rand : Nat → Nat) (s : OrderManager) (customerName foodList : String) :
    Option OrderManager :=
  (splitItems foodList).map (processCustomer rand s customerName)

/-! ## The order accumulator with a 32-bit `int` -/

/-- The value that a 32-bit two's complement `int` holds for the integer `x`: the integer
between `-2147483648` and `2147483647` that differs from `x` by a multiple of `2^32`. -/
def wrapInt32 (x : Int) : Int := (x + 2147483648) % 4294967296 - 2147483648

/-- One iteration of the loop of `processCustomer` with the `int` of the program as built:
the same as `processItem`, except that `totalCost += price` wraps around at 32 bits.  (The
maximum of two `int` values and the menu entries themselves need no wrapping.) -/
def processItemInt32 (customerName : String) (a : OrderAcc) (item : String) : OrderAcc :=
  match mapFind a.mgr.menu item with
  | none =>
    { a with mgr := { a.mgr with
        cout := a.mgr.cout ++ ["Menu item " ++ item ++ " is unavailable.\n"] } }
  | some _ =>
    let r1 := mapIndex a.mgr.menu item
    let price := r1.1.1
    let r2 := mapIndex r1.2 item
    let prepTime := r2.1.2
    { mgr := { a.mgr with
        menu := r2.2
        cout := a.mgr.cout ++
          ["Order placed for customer " ++ customerName ++ ": " ++ item ++ " ($" ++
            toString price ++ ", " ++ toString prepTime ++ " mins).\n"] }
      totalCost := wrapInt32 (a.totalCost + price)
      maxPrepTime := max a.maxPrepTime prepTime }

/-- The function `processCustomer` with the `int` of the program as built. -/
def processCustomerInt32 (rand : Nat → Nat) (s : OrderManager) (customerName : String)
    (foodItems : List String) : OrderManager :=
  let r := getCustomerId rand s customerName
  let a := foodItems.foldl (processItemInt32 customerName)
    { mgr := r.2, totalCost := 0, maxPrepTime := 0 }
  { a.mgr with
    customerPriorityQueue :=
      pqPush a.mgr.customerPriorityQueue (r.1, (a.totalCost, a.maxPrepTime)) }

/-! ## Containers: basic facts -/

theorem mapIndex_of_find {K V : Type} [DecidableEq K] [Inhabited V] (m : List (K × V)) (k : K)
    (v : V) (h : mapFind m k = some v) : mapIndex m k = (v, m) := by
  simp [mapIndex, h]

theorem mapAssign_of_find_none {K V : Type} [DecidableEq K] (m : List (K × V)) (k : K) (v : V)
    (h : mapFind m k = none) : mapAssign m k v = m ++ [(k, v)] := by
  induction m with
  | nil => rfl
  | cons e rest ih =>
    obtain ⟨k', v'⟩ := e
    by_cases hk : k' = k
    · simp [mapFind, hk] at h
    · simp only [mapFind, hk, if_false] at h
      simp [mapAssign, hk, ih h]

theorem mapFind_append {K V : Type} [DecidableEq K] (m m' : List (K × V)) (k : K) :
    mapFind (m ++ m') k = (mapFind m k).orElse (fun _ => mapFind m' k) := by
  induction m with
  | nil => simp [mapFind]
  | cons e rest ih =>
    obtain ⟨k', v'⟩ := e
    by_cases hk : k' = k
    · simp [mapFind, hk]
    · simp [mapFind, hk, ih]

theorem mapFind_mem {K V : Type} [DecidableEq K] (m : List (K × V)) (k : K) (v : V)
    (h : mapFind m k = some v) : (k, v) ∈ m := by
  induction m with
  | nil => simp [mapFind] at h
  | cons e rest ih =>
    obtain ⟨k', v'⟩ := e
    by_cases hk : k' = k
    · simp only [mapFind, hk, if_true, Option.some.injEq] at h
      simp [hk, h]
    · simp only [mapFind, hk, if_false] at h
      exact List.mem_cons_of_mem _ (ih h)

/-! ## The order accumulator -/

theorem processItem_eq (customerName : String) (a : OrderAcc) (item : String) :
    processItem customerName a item =
      { mgr := { a.mgr with cout := a.mgr.cout ++ [itemNotice a.mgr.menu customerName item] }
        totalCost := a.totalCost + ((validEntries a.mgr.menu [item]).map Prod.fst).sum
        maxPrepTime := (validEntries a.mgr.menu [item]).foldl (fun m e => max m e.2)
          a.maxPrepTime } := by
  cases h : mapFind a.mgr.menu item with
  | none => simp [processItem, itemNotice, validEntries, h]
  | some e =>
    simp [processItem, itemNotice, validEntries, h, mapIndex_of_find _ _ _ h]

theorem foldl_processItem (customerName : String) (foodItems : List String) (a : OrderAcc) :
    foodItems.foldl (processItem customerName) a =
      { mgr := { a.mgr with
          cout := a.mgr.cout ++ foodItems.map (itemNotice a.mgr.menu customerName) }
        totalCost := a.totalCost + ((validEntries a.mgr.menu foodItems).map Prod.fst).sum
        maxPrepTime := (validEntries a.mgr.menu foodItems).foldl (fun m e => max m e.2)
          a.maxPrepTime } := by
  induction foodItems generalizing a with
  | nil => simp [validEntries]
  | cons item rest ih =>
    rw [List.foldl_cons, ih, processItem_eq]
    cases h : mapFind a.mgr.menu item with
    | none => simp [validEntries, h]
    | some e => simp [validEntries, h, add_assoc]


/-! ## The customer registry -/

theorem getCustomerId_of_find_none (rand : Nat → Nat) (s : OrderManager) (customerName : String)
    (h : mapFind s.registeredCustomers customerName = none) :
    getCustomerId rand s customerName =
      ((rand s.randCalls : Int) % 9000 + 1000,
        { s with
          randCalls := s.randCalls + 1
          registeredCustomers := s.registeredCustomers ++
            [(customerName, (rand s.randCalls : Int) % 9000 + 1000)]
          customersTxt := if s.customersTxtWritable then
              s.customersTxt ++ [customerName ++ " " ++
                toString ((rand s.randCalls : Int) % 9000 + 1000) ++ "\n"]
            else s.customersTxt
          cout := s.cout ++ ["Welcome new customer " ++ customerName ++ "! Your unique ID: " ++
            toString ((rand s.randCalls : Int) % 9000 + 1000) ++ "\n"] }) := by
  cases hw : s.customersTxtWritable <;>
    simp [getCustomerId, h, saveCustomerToFile, hw, mapAssign_of_find_none _ _ _ h]

theorem getCustomerId_of_find_some (rand : Nat → Nat) (s : OrderManager) (customerName : String)
    (customerId : Int) (h : mapFind s.registeredCustomers customerName = some customerId) :
    getCustomerId rand s customerName =
      (customerId, { s with cout := s.cout ++
        ["Welcome back " ++ customerName ++ "! Your unique ID: " ++ toString customerId ++
          "\n"] }) := by
  simp [getCustomerId, h, mapIndex_of_find _ _ _ h]

theorem getCustomerId_menu (rand : Nat → Nat) (s : OrderManager) (customerName : String) :
    (getCustomerId rand s customerName).2.menu = s.menu := by
  cases h : mapFind s.registeredCustomers customerName with
  | none => rw [getCustomerId_of_find_none rand s customerName h]
  | some v => rw [getCustomerId_of_find_some rand s customerName v h]

theorem getCustomerId_queue (rand : Nat → Nat) (s : OrderManager) (customerName : String) :
    (getCustomerId rand s customerName).2.customerPriorityQueue = s.customerPriorityQueue := by
  cases h : mapFind s.registeredCustomers customerName with
  | none => rw [getCustomerId_of_find_none rand s customerName h]
  | some v => rw [getCustomerId_of_find_some rand s customerName v h]

/-- After `getCustomerId` the name is registered with the returned ID. -/
theorem getCustomerId_find (rand : Nat → Nat) (s : OrderManager) (customerName : String) :
    mapFind (getCustomerId rand s customerName).2.registeredCustomers customerName =
      some (getCustomerId rand s customerName).1 := by
  cases h : mapFind s.registeredCustomers customerName with
  | none =>
    rw [getCustomerId_of_find_none rand s customerName h]
    simp [mapFind_append, h, mapFind]
  | some v =>
    rw [getCustomerId_of_find_some rand s customerName v h]
    exact h

/-- The function `processCustomer` in closed form: the state after `getCustomerId`, one line of output
per item, and one entry more in the queue. -/
theorem processCustomer_eq (rand : Nat → Nat) (s : OrderManager) (customerName : String)
    (foodItems : List String) :
    processCustomer rand s customerName foodItems =
      { (getCustomerId rand s customerName).2 with
        cout := (getCustomerId rand s customerName).2.cout ++
          foodItems.map (itemNotice s.menu customerName)
        customerPriorityQueue := pqPush s.customerPriorityQueue
          ((getCustomerId rand s customerName).1, orderTotals s.menu foodItems) } := by
  simp [processCustomer, foldl_processItem, getCustomerId_menu, getCustomerId_queue,
    orderTotals]

/-! ## Maximum preparation time -/

theorem foldl_max_ge_init (l : List (Int × Int)) (m0 : Int) :
    m0 ≤ l.foldl (fun m e => max m e.2) m0 := by
  induction l generalizing m0 with
  | nil => simp
  | cons e rest ih =>
    simp only [List.foldl_cons]
    exact le_trans (le_max_left _ _) (ih _)

theorem foldl_max_ge_mem (l : List (Int × Int)) (m0 : Int) :
    ∀ e ∈ l, e.2 ≤ l.foldl (fun m e => max m e.2) m0 := by
  induction l generalizing m0 with
  | nil => simp
  | cons e rest ih =>
    intro x hx
    simp only [List.foldl_cons]
    rcases List.mem_cons.1 hx with rfl | hx
    · exact le_trans (le_max_right _ _) (foldl_max_ge_init _ _)
    · exact ih _ x hx

theorem initialMenu_prepTime_pos : ∀ p ∈ initialMenu, 0 < p.2.2 := by decide

theorem initialMenu_price_bounds : ∀ p ∈ initialMenu, 0 < p.2.1 ∧ p.2.1 ≤ 30 := by decide

theorem validEntries_mem (menu : List (String × (Int × Int))) (foodItems : List String)
    (e : Int × Int) (h : e ∈ validEntries menu foodItems) : ∃ k, (k, e) ∈ menu := by
  simp only [validEntries, List.mem_filterMap] at h
  obtain ⟨k, _, hk⟩ := h
  exact ⟨k, mapFind_mem _ _ _ hk⟩

/-- With the program's menu the running sum of `processCustomer` is between `0` and
`30 * foodItems.length`. -/
theorem accumulate_le (foodItems : List String) :
    0 ≤ (orderTotals initialMenu foodItems).1 ∧
      (orderTotals initialMenu foodItems).1 ≤ 30 * foodItems.length := by
  induction foodItems with
  | nil => simp [orderTotals, validEntries]
  | cons item rest ih =>
    simp only [orderTotals, validEntries] at ih ⊢
    cases h : mapFind initialMenu item with
    | none =>
      simp only [List.filterMap_cons, h, List.length_cons, Nat.cast_add, Nat.cast_one]
      omega
    | some e =>
      have hb := initialMenu_price_bounds _ (mapFind_mem _ _ _ h)
      simp only [List.filterMap_cons, h, List.map_cons, List.sum_cons, List.length_cons,
        Nat.cast_add, Nat.cast_one]
      simp only at hb
      omega

/-! ## The totals in a 32-bit `int` -/

theorem wrapInt32_of_fits (x : Int) (hlo : -2147483648 ≤ x) (hhi : x ≤ 2147483647) :
    wrapInt32 x = x := by
  unfold wrapInt32
  omega

theorem wrapInt32_add (x p : Int) : wrapInt32 (wrapInt32 x + p) = wrapInt32 (x + p) := by
  unfold wrapInt32
  omega

theorem processItemInt32_eq (customerName : String) (a : OrderAcc) (item : String) :
    processItemInt32 customerName a item =
      { mgr := { a.mgr with cout := a.mgr.cout ++ [itemNotice a.mgr.menu customerName item] }
        totalCost := match mapFind a.mgr.menu item with
          | none => a.totalCost
          | some e => wrapInt32 (a.totalCost + e.1)
        maxPrepTime := (validEntries a.mgr.menu [item]).foldl (fun m e => max m e.2)
          a.maxPrepTime } := by
  cases h : mapFind a.mgr.menu item with
  | none => simp [processItemInt32, itemNotice, validEntries, h]
  | some e =>
    simp [processItemInt32, itemNotice, validEntries, h, mapIndex_of_find _ _ _ h]

/-- The loop of `processCustomer` in a 32-bit `int`: the same output and the same maximum
as over the unbounded integers, and the sum wrapped around. -/
theorem foldl_processItemInt32 (customerName : String) (foodItems : List String) (a : OrderAcc)
    (t : Int) (ht : a.totalCost = wrapInt32 t) :
    foodItems.foldl (processItemInt32 customerName) a =
      { mgr := { a.mgr with
          cout := a.mgr.cout ++ foodItems.map (itemNotice a.mgr.menu customerName) }
        totalCost := wrapInt32 (t + ((validEntries a.mgr.menu foodItems).map Prod.fst).sum)
        maxPrepTime := (validEntries a.mgr.menu foodItems).foldl (fun m e => max m e.2)
          a.maxPrepTime } := by
  induction foodItems generalizing a t with
  | nil =>
    cases a
    simp only at ht
    simp [validEntries, ht]
  | cons item rest ih =>
    rw [List.foldl_cons, processItemInt32_eq]
    cases h : mapFind a.mgr.menu item with
    | none =>
      rw [ih _ t (by simp only [ht])]
      simp [validEntries, h]
    | some e =>
      rw [ih _ (t + e.1) (by simp only [ht, wrapInt32_add])]
      simp [validEntries, h, add_assoc]

/-- The function `processCustomerInt32` in closed form: it differs from `processCustomer`
in the total cost of the entry pushed, which is wrapped around at 32 bits. -/
theorem processCustomerInt32_eq (rand : Nat → Nat) (s : OrderManager) (customerName : String)
    (foodItems : List String) :
    processCustomerInt32 rand s customerName foodItems =
      { processCustomer rand s customerName foodItems with
        customerPriorityQueue := pqPush s.customerPriorityQueue
          ((getCustomerId rand s customerName).1,
            (wrapInt32 (orderTotals s.menu foodItems).1, (orderTotals s.menu foodItems).2)) } := by
  have hfold := foldl_processItemInt32 customerName foodItems
    { mgr := (getCustomerId rand s customerName).2, totalCost := 0, maxPrepTime := 0 } 0
    (by show (0 : Int) = wrapInt32 0; decide)
  simp only [processCustomerInt32, hfold, processCustomer_eq]
  simp [getCustomerId_menu, getCustomerId_queue, orderTotals]

/-- With the menu of the program, the 32-bit `int` and the unbounded integers give the same
state whenever the prices of the ordered items sum to at most `2147483647`; an order of at
most 71582788 items is enough for that. -/
theorem processCustomerInt32_eq_of_fits (rand : Nat → Nat) (s : OrderManager)
    (customerName : String) (foodItems : List String) (hmenu : s.menu = initialMenu)
    (hfits : (orderTotals initialMenu foodItems).1 ≤ 2147483647 ∨
      foodItems.length ≤ 71582788) :
    processCustomerInt32 rand s customerName foodItems =
      processCustomer rand s customerName foodItems := by
  have hb := accumulate_le foodItems
  have hle : (orderTotals initialMenu foodItems).1 ≤ 2147483647 := by
    rcases hfits with h | h
    · exact h
    · have : (foodItems.length : Int) ≤ 71582788 := by exact_mod_cast h
      omega
  rw [processCustomerInt32_eq, hmenu, wrapInt32_of_fits _ (by omega) hle, processCustomer_eq,
    hmenu]

theorem CompareCustomer_iff (a b : Entry) :
    CompareCustomer a b = true ↔
      a.2.1 < b.2.1 ∨ (a.2.1 = b.2.1 ∧ (b.2.2 < a.2.2 ∨ (a.2.2 = b.2.2 ∧ a.1 < b.1))) := by
  unfold CompareCustomer
  by_cases h1 : a.2.1 = b.2.1
  · by_cases h2 : a.2.2 = b.2.2
    · simp [h1, h2]
    · simp [h1, h2]
  · simp [h1]

theorem CompareCustomer_eq_false_iff (a b : Entry) :
    CompareCustomer a b = false ↔
      b.2.1 < a.2.1 ∨ (a.2.1 = b.2.1 ∧ (a.2.2 < b.2.2 ∨ (a.2.2 = b.2.2 ∧ b.1 ≤ a.1))) := by
  rw [← Bool.not_eq_true, CompareCustomer_iff]
  omega

theorem CompareCustomer_irrefl (a : Entry) : CompareCustomer a a = false := by
  rw [CompareCustomer_eq_false_iff]
  omega

theorem CompareCustomer_trans (a b c : Entry) (hab : CompareCustomer a b = true)
    (hbc : CompareCustomer b c = true) : CompareCustomer a c = true := by
  rw [CompareCustomer_iff] at *
  omega

/-- Two entries that the comparator does not separate are the same entry. -/
theorem eq_of_CompareCustomer_eq_false (a b : Entry) (hab : CompareCustomer a b = false)
    (hba : CompareCustomer b a = false) : a = b := by
  rw [CompareCustomer_eq_false_iff] at *
  obtain ⟨a1, a2, a3⟩ := a
  obtain ⟨b1, b2, b3⟩ := b
  simp only [Prod.mk.injEq] at *
  omega

theorem foldl_best_spec (xs : List Entry) (x : Entry) :
    (xs.foldl (fun best y => if CompareCustomer best y then y else best) x) ∈ x :: xs ∧
      ∀ y ∈ x :: xs, CompareCustomer
        (xs.foldl (fun best y => if CompareCustomer best y then y else best) x) y = false := by
  induction xs using List.reverseRecOn with
  | nil => simp [CompareCustomer_irrefl]
  | append_singleton xs z ih =>
    obtain ⟨hmem, hmax⟩ := ih
    rw [List.foldl_append]
    simp only [List.foldl_cons, List.foldl_nil]
    cases hc : CompareCustomer
        (xs.foldl (fun best y => if CompareCustomer best y then y else best) x) z with
    | true =>
      simp only [if_true]
      refine ⟨by simp, ?_⟩
      intro y hy
      rw [← List.cons_append, List.mem_append, List.mem_singleton] at hy
      rcases hy with hy | rfl
      · cases hyz : CompareCustomer z y with
        | false => rfl
        | true =>
          have := CompareCustomer_trans _ _ _ hc hyz
          rw [hmax y hy] at this
          exact absurd this (by simp)
      · exact CompareCustomer_irrefl _
    | false =>
      simp only [Bool.false_eq_true, if_false]
      refine ⟨?_, ?_⟩
      · rw [← List.cons_append]
        exact List.mem_append_left _ hmem
      · intro y hy
        rw [← List.cons_append, List.mem_append, List.mem_singleton] at hy
        rcases hy with hy | rfl
        · exact hmax y hy
        · exact hc

theorem pqTop_eq_none_iff (q : List Entry) : pqTop q = none ↔ q = [] := by
  cases q <;> simp [pqTop]

/-- The entry `top()` is stored in the queue and is below no stored entry. -/
theorem pqTop_spec (q : List Entry) (t : Entry) (h : pqTop q = some t) :
    t ∈ q ∧ ∀ y ∈ q, CompareCustomer t y = false := by
  cases q with
  | nil => simp [pqTop] at h
  | cons x xs =>
    simp only [pqTop, Option.some.injEq] at h
    subst h
    exact foldl_best_spec xs x

/-- Adequacy of the queue model: any stored entry that is below no stored entry, which is
what the language lets `top()` return, is the entry `pqTop` returns. -/
theorem pqTop_unique (q : List Entry) (x : Entry) (hx : x ∈ q)
    (hmax : ∀ y ∈ q, CompareCustomer x y = false) : pqTop q = some x := by
  cases h : pqTop q with
  | none =>
    rw [pqTop_eq_none_iff] at h
    subst h
    simp at hx
  | some t =>
    obtain ⟨ht, htmax⟩ := pqTop_spec q t h
    rw [eq_of_CompareCustomer_eq_false t x (htmax x hx) (hmax t ht)]

theorem removeEntry_perm (t : Entry) (q : List Entry) (h : t ∈ q) :
    List.Perm q (t :: removeEntry t q) := by
  induction q with
  | nil => simp at h
  | cons x xs ih =>
    by_cases hx : x = t
    · simp [removeEntry, hx]
    · have ht : t ∈ xs := by
        rcases List.mem_cons.1 h with h | h
        · exact absurd h.symm hx
        · exact h
      simp only [removeEntry, hx, if_false]
      exact (List.Perm.cons x (ih ht)).trans (List.Perm.swap t x _)

theorem pqPop_perm (q : List Entry) (t : Entry) (h : pqTop q = some t) :
    List.Perm q (t :: pqPop q) := by
  simp only [pqPop, h]
  exact removeEntry_perm t q (pqTop_spec q t h).1

/-- Adequacy of the queue model: the top entry does not depend on the layout of the stored
entries. -/
theorem pqTop_perm (q q' : List Entry) (h : List.Perm q q') : pqTop q = pqTop q' := by
  cases ht : pqTop q with
  | none =>
    rw [pqTop_eq_none_iff] at ht
    subst ht
    rw [List.nil_perm.1 h]
    rfl
  | some t =>
    obtain ⟨hmem, hmax⟩ := pqTop_spec q t ht
    exact (pqTop_unique q' t (h.subset hmem) (fun y hy => hmax y (h.symm.subset hy))).symm

/-- Adequacy of the queue model: the entries left by `pop()` do not depend, as a multiset, on
the layout of the stored entries. -/
theorem pqPop_perm_congr (q q' : List Entry) (h : List.Perm q q') :
    List.Perm (pqPop q) (pqPop q') := by
  cases ht : pqTop q with
  | none =>
    rw [pqTop_eq_none_iff] at ht
    subst ht
    rw [List.nil_perm.1 h]
  | some t =>
    have ht' : pqTop q' = some t := by rw [← pqTop_perm q q' h, ht]
    exact (List.perm_cons t).1
      (((pqPop_perm q t ht).symm.trans h).trans (pqPop_perm q' t ht'))

theorem pqPop_length (q : List Entry) (t : Entry) (h : pqTop q = some t) :
    (pqPop q).length + 1 = q.length := by
  have := (pqPop_perm q t h).length_eq
  simp only [List.length_cons] at this
  omega

/-! ## The drain loop -/

theorem reportOrder_eq (s : OrderManager) (customer : Entry) :
    reportOrder s customer =
      { s with cout := s.cout ++ (orderNotice s.registeredCustomers customer).toList } := by
  unfold reportOrder orderNotice
  cases h : s.registeredCustomers.find? (fun entry => decide (entry.2 = customer.1)) <;>
    simp [h]

/-- The drain loop with enough iterations: it ends with an empty queue, pops a permutation
of the stored entries, never pops an entry before one that the comparator puts above it,
writes the notices of the popped entries in order and changes nothing else. -/
theorem processOrdersLoop_spec (fuel : Nat) (s : OrderManager) (popped : List Entry)
    (hfuel : s.customerPriorityQueue.length ≤ fuel) :
    ∃ drained : List Entry,
      processOrdersLoop fuel s popped =
        some ({ s with
          customerPriorityQueue := []
          cout := s.cout ++ drained.filterMap (orderNotice s.registeredCustomers) },
          popped ++ drained) ∧
      List.Perm drained s.customerPriorityQueue ∧
      drained.Pairwise (fun a b => CompareCustomer a b = false) := by
  induction fuel generalizing s popped with
  | zero =>
    have hq : s.customerPriorityQueue = [] := List.length_eq_zero.1 (Nat.le_zero.1 hfuel)
    refine ⟨[], ?_, by rw [hq], List.Pairwise.nil⟩
    unfold processOrdersLoop
    simp [hq, pqTop]
    cases s
    simp_all
  | succ fuel ih =>
    cases htop : pqTop s.customerPriorityQueue with
    | none =>
      have hq : s.customerPriorityQueue = [] := (pqTop_eq_none_iff _).1 htop
      refine ⟨[], ?_, by rw [hq], List.Pairwise.nil⟩
      unfold processOrdersLoop
      simp [hq, pqTop]
      cases s
      simp_all
    | some t =>
      have hperm := pqPop_perm _ t htop
      have hlen := pqPop_length _ t htop
      obtain ⟨ht, htmax⟩ := pqTop_spec _ t htop
      obtain ⟨drained, hrun, hp, hsorted⟩ := ih
        (reportOrder { s with customerPriorityQueue := pqPop s.customerPriorityQueue } t)
        (popped ++ [t]) (by rw [reportOrder_eq]; simp only; omega)
      rw [reportOrder_eq] at hrun hp
      simp only at hrun hp
      refine ⟨t :: drained, ?_, ?_, ?_⟩
      · unfold processOrdersLoop
        simp only [htop]
        rw [reportOrder_eq]
        simp only
        rw [hrun]
        cases ho : orderNotice s.registeredCustomers t <;>
          simp [List.filterMap_cons, ho]
      · exact (List.Perm.cons t hp).trans hperm.symm
      · refine List.Pairwise.cons ?_ hsorted
        intro y hy
        exact htmax y ((hperm.symm.subset (List.mem_cons_of_mem _ (hp.subset hy))))

/-- The function `processOrders` in closed form. -/
theorem processOrders_spec (s : OrderManager) :
    ∃ drained : List Entry,
      processOrders s =
        some ({ s with
          customerPriorityQueue := []
          cout := s.cout ++ drained.filterMap (orderNotice s.registeredCustomers) },
          drained) ∧
      List.Perm drained s.customerPriorityQueue ∧
      drained.Pairwise (fun a b => CompareCustomer a b = false) := by
  obtain ⟨drained, h, hp, hs⟩ := processOrdersLoop_spec s.customerPriorityQueue.length s []
    (le_refl _)
  exact ⟨drained, by simpa [processOrders] using h, hp, hs⟩

theorem processOrdersLoop_mono (fuel fuel' : Nat) (hle : fuel ≤ fuel') (s : OrderManager)
    (popped : List Entry) (r : OrderManager × List Entry)
    (h : processOrdersLoop fuel s popped = some r) :
    processOrdersLoop fuel' s popped = some r := by
  induction fuel generalizing fuel' s popped with
  | zero =>
    unfold processOrdersLoop at h ⊢
    cases htop : pqTop s.customerPriorityQueue with
    | none => simpa [htop] using h
    | some t => simp [htop] at h
  | succ fuel ih =>
    obtain ⟨k, rfl⟩ : ∃ k, fuel' = k + 1 := ⟨fuel' - 1, by omega⟩
    unfold processOrdersLoop at h ⊢
    cases htop : pqTop s.customerPriorityQueue with
    | none => simpa [htop] using h
    | some t =>
      simp only [htop] at h ⊢
      exact ih k (by omega) _ _ h

theorem sublist_pair_of_mem {α : Type} (a b : α) (l : List α) (ha : a ∈ l) (hb : b ∈ l)
    (hab : a ≠ b) : List.Sublist [a, b] l ∨ List.Sublist [b, a] l := by
  induction l with
  | nil => simp at ha
  | cons x xs ih =>
    rcases List.mem_cons.1 ha with rfl | ha'
    · rcases List.mem_cons.1 hb with h | hb'
      · exact absurd h.symm hab
      · exact Or.inl (List.Sublist.cons₂ _ (List.singleton_sublist.2 hb'))
    · rcases List.mem_cons.1 hb with rfl | hb'
      · exact Or.inr (List.Sublist.cons₂ _ (List.singleton_sublist.2 ha'))
      · rcases ih ha' hb' with h | h
        · exact Or.inl (List.Sublist.cons _ h)
        · exact Or.inr (List.Sublist.cons _ h)

/-- In a drained sequence, an entry that the comparator puts above another stored entry
comes before it, and never after it. -/
theorem drained_before (q drained : List Entry) (hperm : List.Perm drained q)
    (hsorted : drained.Pairwise (fun a b => CompareCustomer a b = false)) (A B : Entry)
    (hA : A ∈ q) (hB : B ∈ q) (hBA : CompareCustomer B A = true) :
    List.Sublist [A, B] drained ∧ ¬ List.Sublist [B, A] drained := by
  have hne : A ≠ B := by
    rintro rfl
    rw [CompareCustomer_irrefl] at hBA
    exact absurd hBA (by simp)
  have hnot : ¬ List.Sublist [B, A] drained := by
    intro hsub
    have := List.Pairwise.sublist hsub hsorted
    simp only [List.pairwise_cons, List.mem_singleton, forall_eq] at this
    rw [this.1] at hBA
    exact absurd hBA (by simp)
  rcases sublist_pair_of_mem A B drained (hperm.symm.subset hA) (hperm.symm.subset hB) hne
    with h | h
  · exact ⟨h, hnot⟩
  · exact absurd h hnot

/-- The order of the drain: of two entries popped one after the other, the first has the
higher total cost, or the same cost and the lower preparation time, or the same cost and
preparation time and a customer ID that is not lower. -/
theorem processOrders_drain_sorted (s : OrderManager) :
    ∃ s' popped, processOrders s = some (s', popped) ∧
      popped.Pairwise (fun a b =>
        b.2.1 < a.2.1 ∨ (a.2.1 = b.2.1 ∧ (a.2.2 < b.2.2 ∨ (a.2.2 = b.2.2 ∧ b.1 ≤ a.1)))) := by
  obtain ⟨drained, h, _, hs⟩ := processOrders_spec s
  refine ⟨_, drained, h, hs.imp ?_⟩
  intro a b hab
  exact (CompareCustomer_eq_false_iff a b).1 hab

/-- C2, at the failing input: Ann (ID 1000) and Bob (ID 1001) each order `Tacos`, so the two
queue entries have the same total cost and the same preparation time.  The drain pops
the entry with the higher customer ID first, which the order of the specification does
not allow. -/
theorem processOrders_equal_totals_pops_higher_id_first :
    (processOrders
        (processCustomer (fun k => k)
          (processCustomer (fun k => k) (OrderManager.init none true) "Ann" ["Tacos"])
          "Bob" ["Tacos"])).map Prod.snd =
      some [(1001, (10, 10)), (1000, (10, 10))] ∧
    ¬ SpecDrainOrder (1001, (10, 10)) (1000, (10, 10)) := by
  decide

/-- C3. For two entries `A` and `B` of the queue with `A.totalCost > B.totalCost`,
`processOrders` pops `A` before `B`, whatever their preparation times, their customer
IDs and their positions in the queue. -/
theorem processOrders_higher_cost_first (s : OrderManager) (A B : Entry)
    (hA : A ∈ s.customerPriorityQueue) (hB : B ∈ s.customerPriorityQueue)
    (hcost : A.2.1 > B.2.1) :
    ∃ s' popped, processOrders s = some (s', popped) ∧
      List.Sublist [A, B] popped ∧ ¬ List.Sublist [B, A] popped := by
  obtain ⟨drained, h, hp, hs⟩ := processOrders_spec s
  refine ⟨_, drained, h, drained_before _ drained hp hs A B hA hB ?_⟩
  rw [CompareCustomer_iff]
  omega

/-- C3, at the scenario of the specification: Bob orders a burger (15), then Alice orders a
steak and a burger (40); Alice is drained before Bob. -/
theorem processOrders_higher_cost_first_witness :
    ((1001, (40, 30)) : Entry) ∈
        (processCustomer (fun k => k)
          (processCustomer (fun k => k) (OrderManager.init none true) "Bob" ["Burger"])
          "Alice" ["Steak", "Burger"]).customerPriorityQueue ∧
      ((1000, (15, 20)) : Entry) ∈
        (processCustomer (fun k => k)
          (processCustomer (fun k => k) (OrderManager.init none true) "Bob" ["Burger"])
          "Alice" ["Steak", "Burger"]).customerPriorityQueue ∧
      ∃ s' popped,
        processOrders
          (processCustomer (fun k => k)
            (processCustomer (fun k => k) (OrderManager.init none true) "Bob" ["Burger"])
            "Alice" ["Steak", "Burger"]) = some (s', popped) ∧
        List.Sublist [(1001, (40, 30)), (1000, (15, 20))] popped ∧
        ¬ List.Sublist [(1000, (15, 20)), (1001, (40, 30))] popped :=
  ⟨by decide, by decide,
    processOrders_higher_cost_first
      (processCustomer (fun k => k)
        (processCustomer (fun k => k) (OrderManager.init none true) "Bob" ["Burger"])
        "Alice" ["Steak", "Burger"])
      (1001, (40, 30)) (1000, (15, 20)) (by decide) (by decide) (by decide)⟩

/-- C4. For two entries `A` and `B` of the queue with the same total cost and
`A.maxPrepTime < B.maxPrepTime`, `processOrders` pops `A` before `B`, whatever their
customer IDs. -/
theorem processOrders_lower_prep_first (s : OrderManager) (A B : Entry)
    (hA : A ∈ s.customerPriorityQueue) (hB : B ∈ s.customerPriorityQueue)
    (hcost : A.2.1 = B.2.1) (hprep : A.2.2 < B.2.2) :
    ∃ s' popped, processOrders s = some (s', popped) ∧
      List.Sublist [A, B] popped ∧ ¬ List.Sublist [B, A] popped := by
  obtain ⟨drained, h, hp, hs⟩ := processOrders_spec s
  refine ⟨_, drained, h, drained_before _ drained hp hs A B hA hB ?_⟩
  rw [CompareCustomer_iff]
  omega

/-- C4, at the scenario of the specification: two orders of total cost 20, a pizza
(preparation time 25) and steak fries with a soup (preparation time 15); the second is
drained first although it was enqueued last and has the lower customer ID. -/
theorem processOrders_lower_prep_first_witness :
    ((1000, (20, 15)) : Entry) ∈
        (processCustomer (fun k => 1 - k)
          (processCustomer (fun k => 1 - k) (OrderManager.init none true) "Carol" ["Pizza"])
          "Dave" ["Steak Fries", "Soup"]).customerPriorityQueue ∧
      ((1001, (20, 25)) : Entry) ∈
        (processCustomer (fun k => 1 - k)
          (processCustomer (fun k => 1 - k) (OrderManager.init none true) "Carol" ["Pizza"])
          "Dave" ["Steak Fries", "Soup"]).customerPriorityQueue ∧
      ∃ s' popped,
        processOrders
          (processCustomer (fun k => 1 - k)
            (processCustomer (fun k => 1 - k) (OrderManager.init none true) "Carol" ["Pizza"])
            "Dave" ["Steak Fries", "Soup"]) = some (s', popped) ∧
        List.Sublist [(1000, (20, 15)), (1001, (20, 25))] popped ∧
        ¬ List.Sublist [(1001, (20, 25)), (1000, (20, 15))] popped :=
  ⟨by decide, by decide,
    processOrders_lower_prep_first
      (processCustomer (fun k => 1 - k)
        (processCustomer (fun k => 1 - k) (OrderManager.init none true) "Carol" ["Pizza"])
        "Dave" ["Steak Fries", "Soup"])
      (1000, (20, 15)) (1001, (20, 25)) (by decide) (by decide) (by decide) (by decide)⟩

/-- C5. Draining is exhaustive and one-shot: for every state `processOrders` terminates
(with the iterations it is given, and with any larger number), the popped sequence is a
permutation of the stored entries, the queue is empty afterwards, and a second call pops
nothing and leaves the state, its output included, as it is. -/
theorem processOrders_exhaustive_one_shot (s : OrderManager) :
    ∃ s' popped, processOrders s = some (s', popped) ∧
      (∀ fuel, s.customerPriorityQueue.length ≤ fuel →
        processOrdersLoop fuel s [] = some (s', popped)) ∧
      List.Perm popped s.customerPriorityQueue ∧
      s'.customerPriorityQueue = [] ∧
      processOrders s' = some (s', []) := by
  obtain ⟨drained, h, hp, _⟩ := processOrders_spec s
  refine ⟨_, drained, h, ?_, hp, rfl, ?_⟩
  · intro fuel hfuel
    exact processOrdersLoop_mono _ fuel hfuel s [] _ h
  · simp [processOrders, processOrdersLoop, pqTop]

/-! ## The registry across calls -/

theorem processCustomer_registeredCustomers (rand : Nat → Nat) (s : OrderManager)
    (customerName : String) (foodItems : List String) :
    (processCustomer rand s customerName foodItems).registeredCustomers =
      (getCustomerId rand s customerName).2.registeredCustomers := by
  rw [processCustomer_eq]

theorem processCustomer_menu (rand : Nat → Nat) (s : OrderManager) (customerName : String)
    (foodItems : List String) :
    (processCustomer rand s customerName foodItems).menu = s.menu := by
  rw [processCustomer_eq]
  exact getCustomerId_menu rand s customerName

/-- A registered name keeps its ID through `getCustomerId` for any name. -/
theorem getCustomerId_keeps (rand : Nat → Nat) (s : OrderManager) (other customerName : String)
    (customerId : Int) (h : mapFind s.registeredCustomers customerName = some customerId) :
    mapFind (getCustomerId rand s other).2.registeredCustomers customerName =
      some customerId := by
  cases ho : mapFind s.registeredCustomers other with
  | none =>
    rw [getCustomerId_of_find_none rand s other ho]
    simp [mapFind_append, h]
  | some v =>
    rw [getCustomerId_of_find_some rand s other v ho]
    exact h

/-- A registered name keeps its ID through every call. -/
theorem runCall_keeps (rand : Nat → Nat) (s : OrderManager) (c : Call) (customerName : String)
    (customerId : Int) (h : mapFind s.registeredCustomers customerName = some customerId) :
    mapFind (runCall rand s c).registeredCustomers customerName = some customerId := by
  cases c with
  | getCustomerId other => exact getCustomerId_keeps rand s other customerName customerId h
  | processCustomer other foodItems =>
    simp only [runCall]
    rw [processCustomer_registeredCustomers]
    exact getCustomerId_keeps rand s other customerName customerId h
  | processOrders =>
    obtain ⟨drained, hrun, _, _⟩ := processOrders_spec s
    simp only [runCall, hrun]
    exact h

theorem runCalls_keeps (rand : Nat → Nat) (s : OrderManager) (calls : List Call)
    (customerName : String) (customerId : Int)
    (h : mapFind s.registeredCustomers customerName = some customerId) :
    mapFind (runCalls rand s calls).registeredCustomers customerName = some customerId := by
  induction calls generalizing s with
  | nil => exact h
  | cons c rest ih =>
    simp only [runCalls, List.foldl_cons]
    exact ih _ (runCall_keeps rand s c customerName customerId h)

/-- C6. For every state, name and random source, two calls of `getCustomerId` with the same
name return the same ID, whatever calls (for this or other names) are made in between;
and a call adds exactly one registry entry when the name is absent and none when it is
present. -/
theorem getCustomerId_stable (rand : Nat → Nat) (s : OrderManager) (customerName : String)
    (between : List Call) :
    (getCustomerId rand
        (runCalls rand (getCustomerId rand s customerName).2 between) customerName).1 =
      (getCustomerId rand s customerName).1 ∧
    (getCustomerId rand s customerName).2.registeredCustomers.length =
      s.registeredCustomers.length +
        (if mapFind s.registeredCustomers customerName = none then 1 else 0) := by
  constructor
  · have h := runCalls_keeps rand _ between customerName _ (getCustomerId_find rand s customerName)
    rw [getCustomerId_of_find_some rand _ customerName _ h]
  · cases h : mapFind s.registeredCustomers customerName with
    | none =>
      rw [getCustomerId_of_find_none rand s customerName h]
      simp
    | some v =>
      rw [getCustomerId_of_find_some rand s customerName v h]
      simp

/-! ## The persisted store -/

theorem mapFind_mapAssign {K V : Type} [DecidableEq K] (m : List (K × V)) (k k' : K) (v : V) :
    mapFind (mapAssign m k v) k' = if k = k' then some v else mapFind m k' := by
  induction m with
  | nil => simp [mapAssign, mapFind]
  | cons e rest ih =>
    obtain ⟨k0, v0⟩ := e
    by_cases h0 : k0 = k
    · subst h0
      by_cases h1 : k0 = k' <;> simp [mapAssign, mapFind, h1]
    · by_cases h1 : k0 = k'
      · subst h1
        simp [mapAssign, mapFind, h0, Ne.symm h0]
      · simp [mapAssign, mapFind, h0, h1, ih]

theorem foldl_mapAssign_find_of_ne (records : List (String × Int)) (reg : List (String × Int))
    (customerName : String) (h : ∀ r ∈ records, r.1 ≠ customerName) :
    mapFind (records.foldl (fun reg r => mapAssign reg r.1 r.2) reg) customerName =
      mapFind reg customerName := by
  induction records generalizing reg with
  | nil => rfl
  | cons r rest ih =>
    simp only [List.foldl_cons]
    rw [ih _ (fun x hx => h x (List.mem_cons_of_mem _ hx)), mapFind_mapAssign]
    simp [h r (List.mem_cons_self _ _)]

/-- The registry loaded from the store maps a name to the ID of its last record. -/
theorem loadCustomersFromFile_find (before after : List (String × Int)) (customerName : String)
    (customerId : Int) (hlast : ∀ r ∈ after, r.1 ≠ customerName) :
    mapFind (loadCustomersFromFile (some (before ++ (customerName, customerId) :: after)) [])
      customerName = some customerId := by
  simp only [loadCustomersFromFile, List.foldl_append, List.foldl_cons]
  rw [foldl_mapAssign_find_of_ne after _ customerName hlast, mapFind_mapAssign]
  simp

/-- C7, as stated, fails when `customers.txt` cannot be opened for appending: the new name
is added to the registry and nothing is appended to the store. -/
theorem getCustomerId_unwritable_store :
    mapFind (OrderManager.init none false).registeredCustomers "Alice" = none ∧
    (getCustomerId (fun _ => 0) (OrderManager.init none false) "Alice").1 = 1000 ∧
    (getCustomerId (fun _ => 0) (OrderManager.init none false) "Alice").2.registeredCustomers =
      [("Alice", 1000)] ∧
    (getCustomerId (fun _ => 0) (OrderManager.init none false) "Alice").2.customersTxt =
      (OrderManager.init none false).customersTxt ∧
    (getCustomerId (fun _ => 0) (OrderManager.init none false) "Alice").2.customersTxt ≠
      (OrderManager.init none false).customersTxt ++ ["Alice 1000\n"] := by
  decide

/-- C7, amended.  For a name present in the registry, `getCustomerId` returns the stored
ID, makes no call of `rand()`, leaves the registry unchanged and appends nothing to the
store; a name whose last record in the store at startup is `(name, id)` is present with
that ID.  For a name not present, it adds exactly the entry `(name, newId)`, leaves every
other entry unchanged, and appends exactly the line `name newId` to the store when the
store can be opened for appending, and nothing when it cannot. -/
theorem getCustomerId_effects (rand : Nat → Nat) (s : OrderManager) (customerName : String) :
    (∀ customerId, mapFind s.registeredCustomers customerName = some customerId →
      (getCustomerId rand s customerName).1 = customerId ∧
      (getCustomerId rand s customerName).2.randCalls = s.randCalls ∧
      (getCustomerId rand s customerName).2.registeredCustomers = s.registeredCustomers ∧
      (getCustomerId rand s customerName).2.customersTxt = s.customersTxt) ∧
    (∀ (before after : List (String × Int)) (writable : Bool) (customerId : Int),
      (∀ r ∈ after, r.1 ≠ customerName) →
      mapFind (OrderManager.init (some (before ++ (customerName, customerId) :: after))
        writable).registeredCustomers customerName = some customerId) ∧
    (mapFind s.registeredCustomers customerName = none →
      (getCustomerId rand s customerName).1 = (rand s.randCalls : Int) % 9000 + 1000 ∧
      (getCustomerId rand s customerName).2.randCalls = s.randCalls + 1 ∧
      (getCustomerId rand s customerName).2.registeredCustomers =
        s.registeredCustomers ++ [(customerName, (rand s.randCalls : Int) % 9000 + 1000)] ∧
      (∀ other, other ≠ customerName →
        mapFind (getCustomerId rand s customerName).2.registeredCustomers other =
          mapFind s.registeredCustomers other) ∧
      (getCustomerId rand s customerName).2.customersTxt =
        if s.customersTxtWritable then
          s.customersTxt ++
            [customerName ++ " " ++ toString ((rand s.randCalls : Int) % 9000 + 1000) ++ "\n"]
        else s.customersTxt) := by
  refine ⟨?_, ?_, ?_⟩
  · intro customerId h
    rw [getCustomerId_of_find_some rand s customerName customerId h]
    exact ⟨rfl, rfl, rfl, rfl⟩
  · intro before after writable customerId hlast
    exact loadCustomersFromFile_find before after customerName customerId hlast
  · intro h
    rw [getCustomerId_of_find_none rand s customerName h]
    refine ⟨rfl, rfl, rfl, ?_, rfl⟩
    intro other hne
    simp [mapFind_append, mapFind, Ne.symm hne]

/-- C7, amended, at a store holding the record `Ann 1234`: Ann is resolved to 1234 with no
call of `rand()` and no write; Bob, who is new, is added with ID 1000 and the line
`Bob 1000` is appended. -/
theorem getCustomerId_effects_witness :
    (mapFind (OrderManager.init (some [("Ann", 1234)]) true).registeredCustomers "Ann" =
        some 1234 ∧
      (getCustomerId (fun _ => 0) (OrderManager.init (some [("Ann", 1234)]) true) "Ann").1 =
        1234 ∧
      (getCustomerId (fun _ => 0)
        (OrderManager.init (some [("Ann", 1234)]) true) "Ann").2.randCalls = 0 ∧
      (getCustomerId (fun _ => 0)
        (OrderManager.init (some [("Ann", 1234)]) true) "Ann").2.customersTxt = []) ∧
    (mapFind (OrderManager.init (some [("Ann", 1234)]) true).registeredCustomers "Bob" = none ∧
      (getCustomerId (fun _ => 0)
        (OrderManager.init (some [("Ann", 1234)]) true) "Bob").2.registeredCustomers =
        [("Ann", 1234), ("Bob", 1000)] ∧
      (getCustomerId (fun _ => 0)
        (OrderManager.init (some [("Ann", 1234)]) true) "Bob").2.customersTxt =
        ["Bob 1000\n"]) := by
  have hAnn := (getCustomerId_effects (fun _ => 0)
    (OrderManager.init (some [("Ann", 1234)]) true) "Ann").1 1234 (by decide)
  have hLoad := (getCustomerId_effects (fun _ => 0)
    (OrderManager.init (some [("Ann", 1234)]) true) "Ann").2.1 [] [] true 1234 (by simp)
  have hBob := (getCustomerId_effects (fun _ => 0)
    (OrderManager.init (some [("Ann", 1234)]) true) "Bob").2.2 (by decide)
  exact ⟨⟨hLoad, hAnn.1, hAnn.2.1, hAnn.2.2.2⟩, by decide, hBob.2.2.1, hBob.2.2.2.2⟩

/-- C8. The ID that `getCustomerId` gives a new customer is `r % 9000 + 1000` for the value
`r` of `rand()`; it lies between 1000 and 9999, and both bounds are reached. -/
theorem getCustomerId_new_id_range (s : OrderManager) (customerName : String)
    (hnew : mapFind s.registeredCustomers customerName = none) :
    (∀ rand : Nat → Nat,
      (getCustomerId rand s customerName).1 = (rand s.randCalls : Int) % 9000 + 1000 ∧
      1000 ≤ (getCustomerId rand s customerName).1 ∧
      (getCustomerId rand s customerName).1 ≤ 9999) ∧
    (∃ rand : Nat → Nat, (getCustomerId rand s customerName).1 = 1000) ∧
    (∃ rand : Nat → Nat, (getCustomerId rand s customerName).1 = 9999) := by
  refine ⟨?_, ⟨fun _ => 0, ?_⟩, ⟨fun _ => 8999, ?_⟩⟩
  · intro rand
    rw [getCustomerId_of_find_none rand s customerName hnew]
    refine ⟨rfl, ?_, ?_⟩ <;> simp only <;> omega
  · rw [getCustomerId_of_find_none _ s customerName hnew]
    rfl
  · rw [getCustomerId_of_find_none _ s customerName hnew]
    rfl

/-- C8, at a fresh manager and the name `Alice`. -/
theorem getCustomerId_new_id_range_witness :
    mapFind (OrderManager.init none true).registeredCustomers "Alice" = none ∧
    ((∀ rand : Nat → Nat,
      (getCustomerId rand (OrderManager.init none true) "Alice").1 =
        (rand (OrderManager.init none true).randCalls : Int) % 9000 + 1000 ∧
      1000 ≤ (getCustomerId rand (OrderManager.init none true) "Alice").1 ∧
      (getCustomerId rand (OrderManager.init none true) "Alice").1 ≤ 9999) ∧
    (∃ rand : Nat → Nat, (getCustomerId rand (OrderManager.init none true) "Alice").1 = 1000) ∧
    (∃ rand : Nat → Nat,
      (getCustomerId rand (OrderManager.init none true) "Alice").1 = 9999)) :=
  ⟨by decide, getCustomerId_new_id_range (OrderManager.init none true) "Alice" (by decide)⟩

/-! ## Unknown items and queue entries -/

theorem orderTotals_skip (menu : List (String × (Int × Int))) (x : String) (L1 L2 : List String)
    (hx : mapFind menu x = none) :
    orderTotals menu (L1 ++ [x] ++ L2) = orderTotals menu (L1 ++ L2) := by
  simp [orderTotals, validEntries, List.filterMap_append, hx]

theorem itemNotice_unknown (menu : List (String × (Int × Int))) (customerName x : String)
    (hx : mapFind menu x = none) :
    itemNotice menu customerName x = "Menu item " ++ x ++ " is unavailable.\n" := by
  simp [itemNotice, hx]

/-- C9. An unknown item is skipped without aborting the order: when `x` is not a menu key,
`processCustomer` on `L1 ++ [x] ++ L2` ends in the same state as on `L1 ++ L2` (the same
queue, so the same `totalCost` and `maxPrepTime`), except for the output, which is that of
`L1`, then the one notice `Menu item x is unavailable.`, then the same lines for `L2`. -/
theorem processCustomer_skips_unknown_item (rand : Nat → Nat) (s : OrderManager)
    (customerName x : String) (L1 L2 : List String) (hx : mapFind s.menu x = none) :
    (processCustomer rand s customerName (L1 ++ [x] ++ L2)).customerPriorityQueue =
      (processCustomer rand s customerName (L1 ++ L2)).customerPriorityQueue ∧
    { processCustomer rand s customerName (L1 ++ [x] ++ L2) with cout := [] } =
      { processCustomer rand s customerName (L1 ++ L2) with cout := [] } ∧
    ∃ linesL2 : List String, linesL2.length = L2.length ∧
      (processCustomer rand s customerName (L1 ++ L2)).cout =
        (processCustomer rand s customerName L1).cout ++ linesL2 ∧
      (processCustomer rand s customerName (L1 ++ [x] ++ L2)).cout =
        (processCustomer rand s customerName L1).cout ++
          ["Menu item " ++ x ++ " is unavailable.\n"] ++ linesL2 := by
  refine ⟨?_, ?_, L2.map (itemNotice s.menu customerName), by simp, ?_, ?_⟩
  · rw [processCustomer_eq, processCustomer_eq, orderTotals_skip s.menu x L1 L2 hx]
  · rw [processCustomer_eq, processCustomer_eq, orderTotals_skip s.menu x L1 L2 hx]
  · simp [processCustomer_eq]
  · simp [processCustomer_eq, itemNotice_unknown s.menu customerName x hx]

/-- C9, at the item `Unicorn Steak` between a steak and a burger. -/
theorem processCustomer_skips_unknown_item_witness :
    mapFind (OrderManager.init none true).menu "Unicorn Steak" = none ∧
    (processCustomer (fun _ => 0) (OrderManager.init none true) "Alice"
        (["Steak"] ++ ["Unicorn Steak"] ++ ["Burger"])).customerPriorityQueue =
      (processCustomer (fun _ => 0) (OrderManager.init none true) "Alice"
        (["Steak"] ++ ["Burger"])).customerPriorityQueue ∧
    (processCustomer (fun _ => 0) (OrderManager.init none true) "Alice"
        (["Steak"] ++ ["Unicorn Steak"] ++ ["Burger"])).customerPriorityQueue =
      [(1000, (40, 30))] ∧
    (processCustomer (fun _ => 0) (OrderManager.init none true) "Alice"
        (["Steak"] ++ ["Unicorn Steak"] ++ ["Burger"])).cout =
      ["Welcome new customer Alice! Your unique ID: 1000\n",
       "Order placed for customer Alice: Steak ($25, 30 mins).\n",
       "Menu item Unicorn Steak is unavailable.\n",
       "Order placed for customer Alice: Burger ($15, 20 mins).\n"] :=
  ⟨by decide,
    (processCustomer_skips_unknown_item (fun _ => 0) (OrderManager.init none true) "Alice"
      "Unicorn Steak" ["Steak"] ["Burger"] (by decide)).1,
    by decide, by decide⟩

theorem getCustomerId_registry_mono (rand : Nat → Nat) (s : OrderManager) (other : String)
    (p : String × Int) (h : p ∈ s.registeredCustomers) :
    p ∈ (getCustomerId rand s other).2.registeredCustomers := by
  cases ho : mapFind s.registeredCustomers other with
  | none =>
    rw [getCustomerId_of_find_none rand s other ho]
    exact List.mem_append_left _ h
  | some v =>
    rw [getCustomerId_of_find_some rand s other v ho]
    exact h

/-- Every call keeps the property that each customer ID in the queue is held by a
registered name. -/
theorem runCall_queue_ids_registered (rand : Nat → Nat) (s : OrderManager) (c : Call)
    (h : ∀ e ∈ s.customerPriorityQueue, ∃ name, (name, e.1) ∈ s.registeredCustomers) :
    ∀ e ∈ (runCall rand s c).customerPriorityQueue,
      ∃ name, (name, e.1) ∈ (runCall rand s c).registeredCustomers := by
  cases c with
  | getCustomerId other =>
    intro e he
    simp only [runCall, getCustomerId_queue] at he ⊢
    obtain ⟨name, hn⟩ := h e he
    exact ⟨name, getCustomerId_registry_mono rand s other _ hn⟩
  | processCustomer other foodItems =>
    intro e he
    simp only [runCall] at he ⊢
    rw [processCustomer_registeredCustomers]
    rw [processCustomer_eq] at he
    simp only [pqPush, List.mem_append, List.mem_singleton] at he
    rcases he with he | rfl
    · obtain ⟨name, hn⟩ := h e he
      exact ⟨name, getCustomerId_registry_mono rand s other _ hn⟩
    · exact ⟨other, mapFind_mem _ _ _ (getCustomerId_find rand s other)⟩
  | processOrders =>
    obtain ⟨drained, hrun, _, _⟩ := processOrders_spec s
    intro e he
    simp only [runCall, hrun] at he
    simp at he

theorem runCalls_queue_ids_registered (rand : Nat → Nat) (s : OrderManager) (calls : List Call)
    (h : ∀ e ∈ s.customerPriorityQueue, ∃ name, (name, e.1) ∈ s.registeredCustomers) :
    ∀ e ∈ (runCalls rand s calls).customerPriorityQueue,
      ∃ name, (name, e.1) ∈ (runCalls rand s calls).registeredCustomers := by
  induction calls generalizing s with
  | nil => exact h
  | cons c rest ih =>
    simp only [runCalls, List.foldl_cons]
    exact ih _ (runCall_queue_ids_registered rand s c h)

/-- The scan of the registry in `processOrders` finds nothing exactly when no registered
name holds the ID, and otherwise finds an entry of the registry with that ID. -/
theorem orderNotice_cases (registeredCustomers : List (String × Int)) (e : Entry) :
    ((∀ name, (name, e.1) ∉ registeredCustomers) ∧
        registeredCustomers.find? (fun entry => decide (entry.2 = e.1)) = none ∧
        orderNotice registeredCustomers e = none) ∨
      ∃ name, (name, e.1) ∈ registeredCustomers ∧
        registeredCustomers.find? (fun entry => decide (entry.2 = e.1)) = some (name, e.1) ∧
        orderNotice registeredCustomers e =
          some ("Processing order for " ++ name ++ ": Total cost $" ++ toString e.2.1 ++
            ", Max prep time " ++ toString e.2.2 ++ " mins.\n") := by
  cases h : registeredCustomers.find? (fun entry => decide (entry.2 = e.1)) with
  | none =>
    left
    refine ⟨?_, rfl, by simp [orderNotice, h]⟩
    intro name hmem
    have := List.find?_eq_none.1 h _ hmem
    simp at this
  | some entry =>
    right
    have hid : entry.2 = e.1 := by
      have := List.find?_some h
      simpa using this
    have hmem := List.mem_of_find?_eq_some h
    obtain ⟨name, id⟩ := entry
    simp only at hid
    subst hid
    exact ⟨name, hmem, rfl, by simp [orderNotice, h]⟩

theorem forall₂_map_of_forall {α β : Type} (R : α → β → Prop) (f : α → β) (l : List α)
    (h : ∀ x ∈ l, R x (f x)) : List.Forall₂ R l (l.map f) := by
  induction l with
  | nil => exact List.Forall₂.nil
  | cons x xs ih =>
    exact List.Forall₂.cons (h x (List.mem_cons_self _ _))
      (ih (fun y hy => h y (List.mem_cons_of_mem _ hy)))

theorem flatten_map_toList {α β : Type} (f : α → Option β) (l : List α) :
    (l.map (fun x => (f x).toList)).flatten = l.filterMap f := by
  induction l with
  | nil => rfl
  | cons x xs ih =>
    cases hx : f x <;> simp [List.filterMap_cons, hx, ih]

theorem filterMap_eq_map_of_forall {α β : Type} (f : α → Option β) (g : α → β) (l : List α)
    (h : ∀ x ∈ l, f x = some (g x)) : l.filterMap f = l.map g := by
  induction l with
  | nil => rfl
  | cons x xs ih =>
    rw [List.filterMap_cons, h x (List.mem_cons_self _ _), List.map_cons,
      ih (fun y hy => h y (List.mem_cons_of_mem _ hy))]

/-- C11. In every state reached from a freshly constructed manager (with any store, readable
or not) by any sequence of calls of the public member functions, `processCustomer` among
them, every customer ID in the queue is the ID of a registered name; and `processOrders`
then writes exactly one notice per popped entry, in the order of popping, with a name holding
the ID of the entry and with its `totalCost` and `maxPrepTime`: the scan of the registry
never ends without a match. -/
theorem reachable_queue_ids_registered (rand : Nat → Nat) (file : Option (List (String × Int)))
    (writable : Bool) (calls : List Call) :
    (∀ e ∈ (runCalls rand (OrderManager.init file writable) calls).customerPriorityQueue,
      ∃ name, (name, e.1) ∈
        (runCalls rand (OrderManager.init file writable) calls).registeredCustomers) ∧
    ∃ s' popped lines,
      processOrders (runCalls rand (OrderManager.init file writable) calls) =
        some (s', popped) ∧
      List.Perm popped
        (runCalls rand (OrderManager.init file writable) calls).customerPriorityQueue ∧
      s'.cout = (runCalls rand (OrderManager.init file writable) calls).cout ++ lines ∧
      List.Forall₂
        (fun (e : Entry) (line : String) =>
          ∃ name, (name, e.1) ∈
              (runCalls rand (OrderManager.init file writable) calls).registeredCustomers ∧
            line = "Processing order for " ++ name ++ ": Total cost $" ++ toString e.2.1 ++
              ", Max prep time " ++ toString e.2.2 ++ " mins.\n")
        popped lines ∧
      ∀ e ∈ popped,
        (runCalls rand (OrderManager.init file writable) calls).registeredCustomers.find?
          (fun entry => decide (entry.2 = e.1)) ≠ none := by
  have hinv := runCalls_queue_ids_registered rand (OrderManager.init file writable) calls
    (by intro e he; simp [OrderManager.init] at he)
  refine ⟨hinv, ?_⟩
  generalize runCalls rand (OrderManager.init file writable) calls = s at hinv
  obtain ⟨drained, hrun, hperm, _⟩ := processOrders_spec s
  have hsome : ∀ e ∈ drained, ∃ name, (name, e.1) ∈ s.registeredCustomers ∧
      s.registeredCustomers.find? (fun entry => decide (entry.2 = e.1)) = some (name, e.1) ∧
      orderNotice s.registeredCustomers e =
        some ("Processing order for " ++ name ++ ": Total cost $" ++ toString e.2.1 ++
          ", Max prep time " ++ toString e.2.2 ++ " mins.\n") := by
    intro e he
    rcases orderNotice_cases s.registeredCustomers e with ⟨hno, _, _⟩ | h
    · obtain ⟨name, hn⟩ := hinv e (hperm.subset he)
      exact absurd hn (hno name)
    · exact h
  refine ⟨_, drained, drained.filterMap (orderNotice s.registeredCustomers), hrun, hperm, rfl,
    ?_, ?_⟩
  · rw [filterMap_eq_map_of_forall (orderNotice s.registeredCustomers)
      (fun e => (orderNotice s.registeredCustomers e).getD "") drained
      (fun e he => by obtain ⟨name, _, _, hn⟩ := hsome e he; simp only [hn, Option.getD_some])]
    apply forall₂_map_of_forall
    intro e he
    obtain ⟨name, hmem, _, hn⟩ := hsome e he
    exact ⟨name, hmem, by simp only [hn, Option.getD_some]⟩
  · intro e he
    obtain ⟨name, _, hf, _⟩ := hsome e he
    rw [hf]
    simp

/-- C12. For an arbitrary queue and registry `processOrders` pops every stored entry; for a
popped entry whose customer ID no registered name holds it writes nothing and goes on with
the remaining entries; for an entry whose ID some registered name holds it writes exactly
one notice, with the first name of the registry holding that ID, however many names hold
it. -/
theorem processOrders_notices (s : OrderManager) :
    ∃ s' popped notices,
      processOrders s = some (s', popped) ∧
      List.Perm popped s.customerPriorityQueue ∧
      s'.cout = s.cout ++ List.flatten notices ∧
      List.Forall₂
        (fun (e : Entry) (written : List String) =>
          ((∀ name, (name, e.1) ∉ s.registeredCustomers) → written = []) ∧
          ((∃ name, (name, e.1) ∈ s.registeredCustomers) →
            ∃ name,
              s.registeredCustomers.find? (fun entry => decide (entry.2 = e.1)) =
                some (name, e.1) ∧
              written = ["Processing order for " ++ name ++ ": Total cost $" ++
                toString e.2.1 ++ ", Max prep time " ++ toString e.2.2 ++ " mins.\n"]))
        popped notices := by
  obtain ⟨drained, hrun, hperm, _⟩ := processOrders_spec s
  refine ⟨_, drained, drained.map (fun e => (orderNotice s.registeredCustomers e).toList),
    hrun, hperm, ?_, ?_⟩
  · rw [flatten_map_toList]
  · apply forall₂_map_of_forall
    intro e _
    rcases orderNotice_cases s.registeredCustomers e with ⟨hno, _, hn⟩ | ⟨name, hmem, hf, hn⟩
    · refine ⟨fun _ => by rw [hn]; rfl, ?_⟩
      rintro ⟨name, hmem⟩
      exact absurd hmem (hno name)
    · refine ⟨fun hno => absurd hmem (hno name), fun _ => ⟨name, hf, by rw [hn]; rfl⟩⟩

/-- C12, at a queue of three entries and a registry in which Ann and Bob both hold the ID
1000 and no name holds the ID 7: the entry of ID 7 is popped first and nothing is written
for it, and the two entries of ID 1000 get one notice each, under the name Ann. -/
theorem processOrders_notices_witness :
    processOrders
        { registeredCustomers := [("Ann", 1000), ("Bob", 1000)]
          menu := initialMenu
          customerPriorityQueue := [(1000, (15, 20)), (7, (40, 30)), (1000, (8, 5))]
          customersTxt := []
          customersTxtWritable := true
          randCalls := 0
          cout := [] } =
      some
        ({ registeredCustomers := [("Ann", 1000), ("Bob", 1000)]
           menu := initialMenu
           customerPriorityQueue := []
           customersTxt := []
           customersTxtWritable := true
           randCalls := 0
           cout := ["Processing order for Ann: Total cost $15, Max prep time 20 mins.\n",
                    "Processing order for Ann: Total cost $8, Max prep time 5 mins.\n"] },
          [(7, (40, 30)), (1000, (15, 20)), (1000, (8, 5))]) ∧
    ∃ s' popped notices,
      processOrders
        { registeredCustomers := [("Ann", 1000), ("Bob", 1000)]
          menu := initialMenu
          customerPriorityQueue := [(1000, (15, 20)), (7, (40, 30)), (1000, (8, 5))]
          customersTxt := []
          customersTxtWritable := true
          randCalls := 0
          cout := [] } = some (s', popped) ∧
      List.Perm popped [(1000, (15, 20)), (7, (40, 30)), (1000, (8, 5))] ∧
      s'.cout = [] ++ List.flatten notices ∧
      List.Forall₂
        (fun (e : Entry) (written : List String) =>
          ((∀ name, (name, e.1) ∉ [("Ann", (1000 : Int)), ("Bob", 1000)]) → written = []) ∧
          ((∃ name, (name, e.1) ∈ [("Ann", (1000 : Int)), ("Bob", 1000)]) →
            ∃ name,
              [("Ann", (1000 : Int)), ("Bob", 1000)].find?
                  (fun entry => decide (entry.2 = e.1)) = some (name, e.1) ∧
              written = ["Processing order for " ++ name ++ ": Total cost $" ++
                toString e.2.1 ++ ", Max prep time " ++ toString e.2.2 ++ " mins.\n"]))
        popped notices :=
  ⟨by decide,
    processOrders_notices
      { registeredCustomers := [("Ann", 1000), ("Bob", 1000)]
        menu := initialMenu
        customerPriorityQueue := [(1000, (15, 20)), (7, (40, 30)), (1000, (8, 5))]
        customersTxt := []
        customersTxtWritable := true
        randCalls := 0
        cout := [] }⟩

/-! ## The comparator as an order -/

/-- C13. The comparator is a strict total order on the triples: it is irreflexive,
asymmetric and transitive, any two triples are equal or compared one way, and neither of
two triples is below the other exactly when they agree on the three keys, so that being
unordered is transitive. -/
theorem CompareCustomer_strict_total_order :
    (∀ a : Entry, CompareCustomer a a = false) ∧
    (∀ a b : Entry, CompareCustomer a b = true → CompareCustomer b a = false) ∧
    (∀ a b c : Entry, CompareCustomer a b = true → CompareCustomer b c = true →
      CompareCustomer a c = true) ∧
    (∀ a b : Entry, CompareCustomer a b = true ∨ a = b ∨ CompareCustomer b a = true) ∧
    (∀ a b : Entry, (CompareCustomer a b = false ∧ CompareCustomer b a = false) ↔
      (a.1 = b.1 ∧ a.2.1 = b.2.1 ∧ a.2.2 = b.2.2)) ∧
    (∀ a b c : Entry, CompareCustomer a b = false ∧ CompareCustomer b a = false →
      CompareCustomer b c = false ∧ CompareCustomer c b = false →
      CompareCustomer a c = false ∧ CompareCustomer c a = false) := by
  refine ⟨CompareCustomer_irrefl, ?_, CompareCustomer_trans, ?_, ?_, ?_⟩
  · intro a b hab
    rw [CompareCustomer_iff] at hab
    rw [CompareCustomer_eq_false_iff]
    omega
  · intro a b
    cases hab : CompareCustomer a b with
    | true => exact Or.inl rfl
    | false =>
      cases hba : CompareCustomer b a with
      | true => exact Or.inr (Or.inr rfl)
      | false => exact Or.inr (Or.inl (eq_of_CompareCustomer_eq_false a b hab hba))
  · intro a b
    constructor
    · rintro ⟨hab, hba⟩
      rw [eq_of_CompareCustomer_eq_false a b hab hba]
      exact ⟨rfl, rfl, rfl⟩
    · rintro ⟨h1, h2, h3⟩
      rw [CompareCustomer_eq_false_iff, CompareCustomer_eq_false_iff]
      omega
  · rintro a b c ⟨hab, hba⟩ ⟨hbc, hcb⟩
    rw [eq_of_CompareCustomer_eq_false a b hab hba]
    exact ⟨hbc, hcb⟩

/-- C13, at two triples that differ in the customer ID only and at two equal triples. -/
theorem CompareCustomer_strict_total_order_witness :
    (CompareCustomer (1000, (10, 10)) (1001, (10, 10)) = true ∧
      CompareCustomer (1001, (10, 10)) (1000, (10, 10)) = false) ∧
    (CompareCustomer (1000, (10, 10)) (1000, (10, 10)) = false ∧
      ((1000 : Int) = 1000 ∧ (10 : Int) = 10 ∧ (10 : Int) = 10)) :=
  ⟨⟨by decide,
      CompareCustomer_strict_total_order.2.1 (1000, (10, 10)) (1001, (10, 10)) (by decide)⟩,
    by decide,
    (CompareCustomer_strict_total_order.2.2.2.2.1 (1000, (10, 10)) (1000, (10, 10))).1
      ⟨by decide, by decide⟩⟩

/-! ## The drain order as a function of the stored entries -/

theorem foldl_pqPush (q entries : List Entry) : entries.foldl pqPush q = q ++ entries := by
  induction entries generalizing q with
  | nil => simp
  | cons e rest ih => simp [List.foldl_cons, ih, pqPush]

/-- Two sequences that hold the same entries and in which no entry comes before one that
the comparator puts above it are the same sequence. -/
theorem drained_unique (l₁ l₂ : List Entry) (hperm : List.Perm l₁ l₂)
    (h₁ : l₁.Pairwise (fun a b => CompareCustomer a b = false))
    (h₂ : l₂.Pairwise (fun a b => CompareCustomer a b = false)) : l₁ = l₂ := by
  induction l₁ generalizing l₂ with
  | nil => exact (List.nil_perm.1 hperm).symm
  | cons a l₁ ih =>
    cases l₂ with
    | nil => exact absurd (List.perm_nil.1 hperm) (by simp)
    | cons b l₂ =>
      rw [List.pairwise_cons] at h₁ h₂
      have hab : a = b := by
        have ha : a ∈ b :: l₂ := hperm.subset (List.mem_cons_self _ _)
        have hb : b ∈ a :: l₁ := hperm.symm.subset (List.mem_cons_self _ _)
        rcases List.mem_cons.1 ha with h | ha'
        · exact h
        · rcases List.mem_cons.1 hb with h | hb'
          · exact h.symm
          · exact eq_of_CompareCustomer_eq_false a b (h₁.1 b hb') (h₂.1 a ha')
      subst hab
      rw [ih l₂ ((List.perm_cons a).1 hperm) h₁.2 h₂.2]

/-- C19. The drain order depends only on which entries were enqueued: when the entries
pushed onto two queues are permutations of each other, `processOrders` pops the same
sequence from both. -/
theorem processOrders_popped_of_perm (s₁ s₂ : OrderManager) (entries₁ entries₂ : List Entry)
    (hq₁ : s₁.customerPriorityQueue = entries₁.foldl pqPush [])
    (hq₂ : s₂.customerPriorityQueue = entries₂.foldl pqPush [])
    (hperm : List.Perm entries₁ entries₂) :
    ∃ r₁ r₂, processOrders s₁ = some r₁ ∧ processOrders s₂ = some r₂ ∧ r₁.2 = r₂.2 := by
  obtain ⟨d₁, hrun₁, hp₁, hs₁⟩ := processOrders_spec s₁
  obtain ⟨d₂, hrun₂, hp₂, hs₂⟩ := processOrders_spec s₂
  refine ⟨_, _, hrun₁, hrun₂, ?_⟩
  rw [hq₁, foldl_pqPush, List.nil_append] at hp₁
  rw [hq₂, foldl_pqPush, List.nil_append] at hp₂
  exact drained_unique d₁ d₂ ((hp₁.trans hperm).trans hp₂.symm) hs₁ hs₂

/-- C19, at three entries pushed in two different orders onto managers that differ in
their registry as well. -/
theorem processOrders_popped_of_perm_witness :
    (OrderManager.init none true).customerPriorityQueue ++
        [(1000, (15, 20)), (1001, (40, 30)), (1002, (15, 10))] =
      [(1000, (15, 20)), (1001, (40, 30)), (1002, (15, 10))].foldl pqPush [] ∧
    (OrderManager.init (some [("Ann", 1001)]) false).customerPriorityQueue ++
        [(1002, (15, 10)), (1000, (15, 20)), (1001, (40, 30))] =
      [(1002, (15, 10)), (1000, (15, 20)), (1001, (40, 30))].foldl pqPush [] ∧
    List.Perm [((1000 : Int), ((15 : Int), (20 : Int))), (1001, (40, 30)), (1002, (15, 10))]
      [(1002, (15, 10)), (1000, (15, 20)), (1001, (40, 30))] ∧
    ∃ r₁ r₂,
      processOrders { OrderManager.init none true with
          customerPriorityQueue := (OrderManager.init none true).customerPriorityQueue ++
            [(1000, (15, 20)), (1001, (40, 30)), (1002, (15, 10))] } = some r₁ ∧
      processOrders { OrderManager.init (some [("Ann", 1001)]) false with
          customerPriorityQueue :=
            (OrderManager.init (some [("Ann", 1001)]) false).customerPriorityQueue ++
              [(1002, (15, 10)), (1000, (15, 20)), (1001, (40, 30))] } = some r₂ ∧
      r₁.2 = r₂.2 :=
  ⟨by decide, by decide, by decide,
    processOrders_popped_of_perm
      { OrderManager.init none true with
        customerPriorityQueue := (OrderManager.init none true).customerPriorityQueue ++
          [(1000, (15, 20)), (1001, (40, 30)), (1002, (15, 10))] }
      { OrderManager.init (some [("Ann", 1001)]) false with
        customerPriorityQueue :=
          (OrderManager.init (some [("Ann", 1001)]) false).customerPriorityQueue ++
            [(1002, (15, 10)), (1000, (15, 20)), (1001, (40, 30))] }
      [(1000, (15, 20)), (1001, (40, 30)), (1002, (15, 10))]
      [(1002, (15, 10)), (1000, (15, 20)), (1001, (40, 30))]
      (by decide) (by decide) (by decide)⟩

/-! ## Signs of the totals -/

theorem sum_pos_of_pos (l : List Int) (hpos : ∀ x ∈ l, 0 < x) (hne : l ≠ []) : 0 < l.sum := by
  induction l with
  | nil => exact absurd rfl hne
  | cons x xs ih =>
    rw [List.sum_cons]
    have hx := hpos x (List.mem_cons_self _ _)
    by_cases hxs : xs = []
    · subst hxs
      simpa using hx
    · have := ih (fun y hy => hpos y (List.mem_cons_of_mem _ hy)) hxs
      omega

theorem validEntries_eq_nil_iff (menu : List (String × (Int × Int))) (foodItems : List String) :
    validEntries menu foodItems = [] ↔ ∀ item ∈ foodItems, mapFind menu item = none := by
  simp only [validEntries, List.filterMap_eq_nil_iff]

/-- C14. With the menu of the program, the order that `processCustomer` enqueues has
`totalCost ≥ 0` and `maxPrepTime ≥ 0`, and `maxPrepTime = 0` holds exactly when no element
of the item list is a menu key, which holds exactly when `totalCost = 0` (the integers
being unbounded). -/
theorem processCustomer_totals_nonneg (rand : Nat → Nat) (s : OrderManager)
    (customerName : String) (L : List String) (hmenu : s.menu = initialMenu) :
    ∃ totalCost maxPrepTime : Int,
      (processCustomer rand s customerName L).customerPriorityQueue =
        pqPush s.customerPriorityQueue
          ((getCustomerId rand s customerName).1, (totalCost, maxPrepTime)) ∧
      0 ≤ totalCost ∧ 0 ≤ maxPrepTime ∧
      (maxPrepTime = 0 ↔ ∀ item ∈ L, mapFind initialMenu item = none) ∧
      ((∀ item ∈ L, mapFind initialMenu item = none) ↔ totalCost = 0) := by
  refine ⟨(orderTotals initialMenu L).1, (orderTotals initialMenu L).2, ?_, ?_, ?_, ?_, ?_⟩
  · rw [processCustomer_eq, hmenu]
  · exact (accumulate_le L).1
  · exact foldl_max_ge_init _ 0
  · rw [← validEntries_eq_nil_iff]
    constructor
    · intro h0
      by_contra hne
      obtain ⟨e, he⟩ := List.exists_mem_of_ne_nil _ hne
      obtain ⟨k, hk⟩ := validEntries_mem _ _ _ he
      have hpos := initialMenu_prepTime_pos _ hk
      have hge := foldl_max_ge_mem (validEntries initialMenu L) 0 e he
      simp only [orderTotals] at h0
      simp only at hpos
      omega
    · intro hnil
      simp [orderTotals, hnil]
  · rw [← validEntries_eq_nil_iff]
    constructor
    · intro hnil
      simp [orderTotals, hnil]
    · intro h0
      by_contra hne
      have hpos : 0 < ((validEntries initialMenu L).map Prod.fst).sum := by
        apply sum_pos_of_pos
        · intro x hx
          obtain ⟨e, he, rfl⟩ := List.mem_map.1 hx
          obtain ⟨k, hk⟩ := validEntries_mem _ _ _ he
          exact (initialMenu_price_bounds _ hk).1
        · simpa using hne
      simp only [orderTotals] at h0
      omega

/-- C14, at one order with a menu item and at one order without any. -/
theorem processCustomer_totals_nonneg_witness :
    (OrderManager.init none true).menu = initialMenu ∧
    (processCustomer (fun _ => 0) (OrderManager.init none true) "Alice"
      ["Soup", "soup"]).customerPriorityQueue = [(1000, (8, 5))] ∧
    (processCustomer (fun _ => 0) (OrderManager.init none true) "Alice"
      ["soup", ""]).customerPriorityQueue = [(1000, (0, 0))] ∧
    ∃ totalCost maxPrepTime : Int,
      (processCustomer (fun _ => 0) (OrderManager.init none true) "Alice"
          ["Soup", "soup"]).customerPriorityQueue =
        pqPush (OrderManager.init none true).customerPriorityQueue
          ((getCustomerId (fun _ => 0) (OrderManager.init none true) "Alice").1,
            (totalCost, maxPrepTime)) ∧
      0 ≤ totalCost ∧ 0 ≤ maxPrepTime ∧
      (maxPrepTime = 0 ↔ ∀ item ∈ ["Soup", "soup"], mapFind initialMenu item = none) ∧
      ((∀ item ∈ ["Soup", "soup"], mapFind initialMenu item = none) ↔ totalCost = 0) :=
  ⟨rfl, by decide, by decide,
    processCustomer_totals_nonneg (fun _ => 0) (OrderManager.init none true) "Alice"
      ["Soup", "soup"] rfl⟩

/-! ## The menu is read-only -/

theorem runCall_menu (rand : Nat → Nat) (s : OrderManager) (c : Call) :
    (runCall rand s c).menu = s.menu := by
  cases c with
  | getCustomerId other => exact getCustomerId_menu rand s other
  | processCustomer other foodItems => exact processCustomer_menu rand s other foodItems
  | processOrders =>
    obtain ⟨drained, hrun, _, _⟩ := processOrders_spec s
    simp only [runCall, hrun]

theorem runCalls_menu (rand : Nat → Nat) (s : OrderManager) (calls : List Call) :
    (runCalls rand s calls).menu = s.menu := by
  induction calls generalizing s with
  | nil => rfl
  | cons c rest ih =>
    simp only [runCalls, List.foldl_cons]
    exact (ih _).trans (runCall_menu rand s c)

/-- C15. The menu is read-only: `processCustomer` (for every name and item list, unknown
items included), `getCustomerId` and `processOrders` leave the menu as it is, so after any
sequence of calls it is the menu the manager was constructed with; and in the loop of
`processCustomer` both accesses `menu[item]` that follow a successful membership test find
the key: they return the stored entry and add no node. -/
theorem menu_read_only (rand : Nat → Nat) (s : OrderManager) (customerName : String)
    (foodItems : List String) :
    (processCustomer rand s customerName foodItems).menu = s.menu ∧
    (getCustomerId rand s customerName).2.menu = s.menu ∧
    (∃ r, processOrders s = some r ∧ r.1.menu = s.menu) ∧
    (∀ (file : Option (List (String × Int))) (writable : Bool) (calls : List Call),
      (runCalls rand (OrderManager.init file writable) calls).menu = initialMenu) ∧
    (∀ (a : OrderAcc) (item : String),
      (processItem customerName a item).mgr.menu = a.mgr.menu) ∧
    (∀ (a : OrderAcc) (item : String) (e : Int × Int), mapFind a.mgr.menu item = some e →
      mapIndex a.mgr.menu item = (e, a.mgr.menu) ∧
      mapIndex (mapIndex a.mgr.menu item).2 item = (e, a.mgr.menu)) := by
  refine ⟨processCustomer_menu rand s customerName foodItems,
    getCustomerId_menu rand s customerName, ?_, ?_, ?_, ?_⟩
  · obtain ⟨drained, hrun, _, _⟩ := processOrders_spec s
    exact ⟨_, hrun, rfl⟩
  · intro file writable calls
    rw [runCalls_menu]
    rfl
  · intro a item
    rw [processItem_eq]
  · intro a item e he
    rw [mapIndex_of_find _ _ _ he]
    exact ⟨rfl, mapIndex_of_find _ _ _ he⟩

/-- C15, at an order with an unknown item, and at the two accesses `menu["Soup"]`. -/
theorem menu_read_only_witness :
    (processCustomer (fun _ => 0) (OrderManager.init none true) "Alice"
      ["Soup", "Unicorn Steak"]).menu = initialMenu ∧
    mapFind initialMenu "Soup" = some (8, 5) ∧
    mapIndex initialMenu "Soup" = ((8, 5), initialMenu) ∧
    mapIndex (mapIndex initialMenu "Soup").2 "Soup" = ((8, 5), initialMenu) :=
  ⟨(menu_read_only (fun _ => 0) (OrderManager.init none true) "Alice"
      ["Soup", "Unicorn Steak"]).1,
    by decide,
    (menu_read_only (fun _ => 0) (OrderManager.init none true) "Alice"
      ["Soup", "Unicorn Steak"]).2.2.2.2.2
      { mgr := OrderManager.init none true, totalCost := 0, maxPrepTime := 0 } "Soup" (8, 5)
      (by decide)⟩

/-! ## Colliding customer IDs -/

/-- C18. Customer IDs are assigned without a collision check: with a random source that
returns 0 twice, the new names Alice and Bob both get the ID 1000 and both entries are in
the registry.  When their orders (a steak, a soup) are then drained, then in whatever order
the registry is iterated, the scan finds one and the same name, Alice or Bob, for both
popped entries, and both notices carry that name: the order of one customer is reported
under the name of the other. -/
theorem getCustomerId_collision :
    ("Alice" ≠ "Bob" ∧
      mapFind (OrderManager.init none true).registeredCustomers "Alice" = none ∧
      mapFind (getCustomerId (fun _ => 0) (OrderManager.init none true)
        "Alice").2.registeredCustomers "Bob" = none ∧
      (getCustomerId (fun _ => 0) (OrderManager.init none true) "Alice").1 = 1000 ∧
      (getCustomerId (fun _ => 0)
        (getCustomerId (fun _ => 0) (OrderManager.init none true) "Alice").2 "Bob").1 = 1000 ∧
      ("Alice", 1000) ∈ (getCustomerId (fun _ => 0)
        (getCustomerId (fun _ => 0) (OrderManager.init none true) "Alice").2
          "Bob").2.registeredCustomers ∧
      ("Bob", 1000) ∈ (getCustomerId (fun _ => 0)
        (getCustomerId (fun _ => 0) (OrderManager.init none true) "Alice").2
          "Bob").2.registeredCustomers) ∧
    ∀ registeredCustomers : List (String × Int),
      List.Perm registeredCustomers
        (processCustomer (fun _ => 0)
          (processCustomer (fun _ => 0) (OrderManager.init none true) "Alice" ["Steak"])
          "Bob" ["Soup"]).registeredCustomers →
      ∃ name, (name = "Alice" ∨ name = "Bob") ∧
        registeredCustomers.find? (fun entry => decide (entry.2 = 1000)) = some (name, 1000) ∧
        ∃ s',
          processOrders
            { (processCustomer (fun _ => 0)
                (processCustomer (fun _ => 0) (OrderManager.init none true) "Alice" ["Steak"])
                "Bob" ["Soup"]) with
              registeredCustomers := registeredCustomers } =
            some (s', [(1000, (25, 30)), (1000, (8, 5))]) ∧
          s'.cout =
            (processCustomer (fun _ => 0)
              (processCustomer (fun _ => 0) (OrderManager.init none true) "Alice" ["Steak"])
              "Bob" ["Soup"]).cout ++
              ["Processing order for " ++ name ++ ": Total cost $25, Max prep time 30 mins.\n",
               "Processing order for " ++ name ++ ": Total cost $8, Max prep time 5 mins.\n"] := by
  refine ⟨by decide, ?_⟩
  intro registeredCustomers hperm
  have hreg :
      (processCustomer (fun _ => 0)
        (processCustomer (fun _ => 0) (OrderManager.init none true) "Alice" ["Steak"])
        "Bob" ["Soup"]).registeredCustomers = [("Alice", 1000), ("Bob", 1000)] := by
    decide
  have hq :
      (processCustomer (fun _ => 0)
        (processCustomer (fun _ => 0) (OrderManager.init none true) "Alice" ["Steak"])
        "Bob" ["Soup"]).customerPriorityQueue = [(1000, (25, 30)), (1000, (8, 5))] := by
    decide
  rw [hreg] at hperm
  obtain ⟨drained, hrun, hp, hs⟩ := processOrders_spec
    { (processCustomer (fun _ => 0)
        (processCustomer (fun _ => 0) (OrderManager.init none true) "Alice" ["Steak"])
        "Bob" ["Soup"]) with
      registeredCustomers := registeredCustomers }
  simp only at hrun hp
  rw [hq] at hp
  have hd : drained = [(1000, (25, 30)), (1000, (8, 5))] :=
    drained_unique _ _ hp hs (by decide)
  subst hd
  rcases orderNotice_cases registeredCustomers (1000, (25, 30)) with
    ⟨hno, _, _⟩ | ⟨name, hmem, hf, hn⟩
  · exact absurd (hperm.symm.subset (List.mem_cons_self _ _)) (hno "Alice")
  · have hname : name = "Alice" ∨ name = "Bob" := by
      have := hperm.subset hmem
      simpa using this
    have hn2 : orderNotice registeredCustomers (1000, (8, 5)) =
        some ("Processing order for " ++ name ++ ": Total cost $" ++ toString (8 : Int) ++
          ", Max prep time " ++ toString (5 : Int) ++ " mins.\n") := by
      simp only at hf
      simp only [orderNotice, hf, Option.map_some']
    have h1 : ": Total cost $" ++ (toString (25 : Int) ++ (", Max prep time " ++
        (toString (30 : Int) ++ " mins.\n"))) = ": Total cost $25, Max prep time 30 mins.\n" := by
      decide
    have h2 : ": Total cost $" ++ (toString (8 : Int) ++ (", Max prep time " ++
        (toString (5 : Int) ++ " mins.\n"))) = ": Total cost $8, Max prep time 5 mins.\n" := by
      decide
    simp only at hn
    refine ⟨name, hname, hf, _, hrun, ?_⟩
    simp only [List.filterMap_cons, List.filterMap_nil, hn, hn2, String.append_assoc, h1, h2]

/-- C18, at the registry iterated with the newest entry first: both notices carry the
name Bob, so the steak of Alice is reported under the name of Bob. -/
theorem getCustomerId_collision_witness :
    List.Perm [("Bob", (1000 : Int)), ("Alice", 1000)]
        (processCustomer (fun _ => 0)
          (processCustomer (fun _ => 0) (OrderManager.init none true) "Alice" ["Steak"])
          "Bob" ["Soup"]).registeredCustomers ∧
    (processOrders
        { (processCustomer (fun _ => 0)
            (processCustomer (fun _ => 0) (OrderManager.init none true) "Alice" ["Steak"])
            "Bob" ["Soup"]) with
          registeredCustomers := [("Bob", 1000), ("Alice", 1000)] }).map
        (fun r => (r.2, r.1.cout.drop 4)) =
      some ([(1000, (25, 30)), (1000, (8, 5))],
        ["Processing order for Bob: Total cost $25, Max prep time 30 mins.\n",
         "Processing order for Bob: Total cost $8, Max prep time 5 mins.\n"]) ∧
    ∃ name, (name = "Alice" ∨ name = "Bob") ∧
      [("Bob", (1000 : Int)), ("Alice", 1000)].find? (fun entry => decide (entry.2 = 1000)) =
        some (name, 1000) ∧
      ∃ s',
        processOrders
          { (processCustomer (fun _ => 0)
              (processCustomer (fun _ => 0) (OrderManager.init none true) "Alice" ["Steak"])
              "Bob" ["Soup"]) with
            registeredCustomers := [("Bob", 1000), ("Alice", 1000)] } =
          some (s', [(1000, (25, 30)), (1000, (8, 5))]) ∧
        s'.cout =
          (processCustomer (fun _ => 0)
            (processCustomer (fun _ => 0) (OrderManager.init none true) "Alice" ["Steak"])
            "Bob" ["Soup"]).cout ++
            ["Processing order for " ++ name ++ ": Total cost $25, Max prep time 30 mins.\n",
             "Processing order for " ++ name ++ ": Total cost $8, Max prep time 5 mins.\n"] :=
  ⟨by decide, by decide,
    getCustomerId_collision.2 [("Bob", 1000), ("Alice", 1000)] (by decide)⟩

/-! ## The item splitting of `main` -/

theorem strFind_eq_none_iff (c : Char) (l : List Char) : strFind c l = none ↔ c ∉ l := by
  induction l with
  | nil => simp [strFind]
  | cons x xs ih =>
    by_cases hx : x = c
    · simp [strFind, hx]
    · simp [strFind, hx, ih, Ne.symm hx]

theorem strFind_some (c : Char) (l : List Char) (pos : Nat) (h : strFind c l = some pos) :
    c ∉ l.take pos ∧ l = l.take pos ++ c :: l.drop (pos + 1) := by
  induction l generalizing pos with
  | nil => simp [strFind] at h
  | cons x xs ih =>
    by_cases hx : x = c
    · simp only [strFind, hx, if_true, Option.some.injEq] at h
      subst h
      simp [hx]
    · simp only [strFind, hx, if_false, Option.map_eq_some'] at h
      obtain ⟨p, hp, rfl⟩ := h
      obtain ⟨h1, h2⟩ := ih p hp
      refine ⟨?_, ?_⟩
      · simp only [List.take_succ_cons, List.mem_cons, not_or]
        exact ⟨Ne.symm hx, h1⟩
      · simp only [List.take_succ_cons, List.drop_succ_cons, List.cons_append]
        rw [← h2]

theorem intercalate_concat (sep : List Char) (xs : List (List Char)) (y : List Char) :
    List.intercalate sep (xs ++ [y]) = (xs.map (fun x => x ++ sep)).flatten ++ y := by
  induction xs with
  | nil => simp [List.intercalate]
  | cons x xs ih =>
    cases xs with
    | nil => simp [List.intercalate]
    | cons z zs =>
      simp only [List.intercalate, List.cons_append, List.intersperse_cons₂, List.flatten_cons,
        List.map_cons, List.append_assoc] at ih ⊢
      rw [ih]

theorem flatten_map_append_sep (sep : List Char) (xs : List (List Char)) (hne : xs ≠ []) :
    (xs.map (fun x => x ++ sep)).flatten = List.intercalate sep xs ++ sep := by
  obtain ⟨ys, y, rfl⟩ : ∃ ys y, xs = ys ++ [y] :=
    ⟨xs.dropLast, xs.getLast hne, (List.dropLast_append_getLast hne).symm⟩
  rw [intercalate_concat]
  simp


/-- The splitting loop with enough iterations: it ends, the rest holds no comma, and the
line is the items pushed, each followed by a comma, followed by the rest. -/
theorem splitLoop_spec (fuel : Nat) (foodList : List Char) (foodItems : List String)
    (hfuel : foodList.length ≤ fuel) :
    ∃ (rest : List Char) (items : List String),
      splitLoop fuel foodList foodItems = some (rest, foodItems ++ items) ∧
      ',' ∉ rest ∧ (∀ item ∈ items, ',' ∉ item.data) ∧
      foodList = (items.map (fun item => item.data ++ [','])).flatten ++ rest := by
  induction fuel generalizing foodList foodItems with
  | zero =>
    have hnil : foodList = [] := List.length_eq_zero.1 (Nat.le_zero.1 hfuel)
    subst hnil
    exact ⟨[], [], by simp [splitLoop, strFind], by simp, by simp, by simp⟩
  | succ fuel ih =>
    cases hfind : strFind ',' foodList with
    | none =>
      refine ⟨foodList, [], ?_, (strFind_eq_none_iff _ _).1 hfind, by simp, by simp⟩
      unfold splitLoop
      simp [hfind]
    | some pos =>
      obtain ⟨hnot, hsplit⟩ := strFind_some ',' foodList pos hfind
      have hlen : (foodList.drop (pos + 1)).length ≤ fuel := by
        have := congrArg List.length hsplit
        simp only [List.length_append, List.length_cons] at this
        omega
      obtain ⟨rest, items, hrun, hrest, hitems, hjoin⟩ :=
        ih (foodList.drop (pos + 1)) (foodItems ++ [String.mk (foodList.take pos)]) hlen
      refine ⟨rest, String.mk (foodList.take pos) :: items, ?_, hrest, ?_, ?_⟩
      · unfold splitLoop
        simp only [hfind]
        rw [hrun]
        simp
      · intro item hitem
        rcases List.mem_cons.1 hitem with rfl | hitem
        · exact hnot
        · exact hitems item hitem
      · simp only [List.map_cons, List.flatten_cons, List.append_assoc, List.singleton_append,
          List.cons_append, List.nil_append]
        rw [← hjoin]
        exact hsplit

theorem splitLoop_mono (fuel fuel' : Nat) (hle : fuel ≤ fuel') (foodList : List Char)
    (foodItems : List String) (r : List Char × List String)
    (h : splitLoop fuel foodList foodItems = some r) :
    splitLoop fuel' foodList foodItems = some r := by
  induction fuel generalizing fuel' foodList foodItems with
  | zero =>
    unfold splitLoop at h ⊢
    cases hfind : strFind ',' foodList with
    | none => simpa [hfind] using h
    | some pos => simp [hfind] at h
  | succ fuel ih =>
    obtain ⟨k, rfl⟩ : ∃ k, fuel' = k + 1 := ⟨fuel' - 1, by omega⟩
    unfold splitLoop at h ⊢
    cases hfind : strFind ',' foodList with
    | none => simpa [hfind] using h
    | some pos =>
      simp only [hfind] at h ⊢
      exact ih k (by omega) _ _ h

theorem count_flatten_items (items : List String) (hitems : ∀ item ∈ items, ',' ∉ item.data) :
    List.count ',' (items.map (fun item => item.data ++ [','])).flatten = items.length := by
  induction items with
  | nil => rfl
  | cons item rest ih =>
    simp only [List.map_cons, List.flatten_cons, List.count_append, List.length_cons]
    rw [ih (fun x hx => hitems x (List.mem_cons_of_mem _ hx)),
      List.count_eq_zero.2 (hitems item (List.mem_cons_self _ _))]
    simp
    omega

/-- C16. Items are split on literal commas with no trimming: for every line the splitting
loop terminates (with the iterations it is given, and with any larger number), no item
holds a comma, joining the items with `,` gives back the line, less one comma at its end
if it ends with one, so that every other character is kept in its place and an empty
segment between two commas is kept as an empty item; the number of items is the number
of commas, plus one when the line is not empty and does not end with a comma; and the
empty line gives no item. -/
theorem splitItems_spec (foodList : String) :
    ∃ items : List String,
      splitItems foodList = some items ∧
      (∀ fuel, foodList.data.length ≤ fuel →
        splitLoop fuel foodList.data [] = splitLoop foodList.data.length foodList.data []) ∧
      (∀ item ∈ items, ',' ∉ item.data) ∧
      List.intercalate [','] (items.map String.data) =
        (if foodList.data.getLast? = some ',' then foodList.data.dropLast else foodList.data) ∧
      items.length = List.count ',' foodList.data +
        (if foodList.data = [] ∨ foodList.data.getLast? = some ',' then 0 else 1) ∧
      (foodList = "" → items = []) := by
  obtain ⟨rest, items, hrun, hrest, hitems, hjoin⟩ :=
    splitLoop_spec foodList.data.length foodList.data [] (le_refl _)
  simp only [List.nil_append] at hrun
  have hmono : ∀ fuel, foodList.data.length ≤ fuel →
      splitLoop fuel foodList.data [] = splitLoop foodList.data.length foodList.data [] := by
    intro fuel hfuel
    rw [hrun]
    exact splitLoop_mono _ fuel hfuel _ _ _ hrun
  have hcount : List.count ',' foodList.data = items.length := by
    rw [hjoin, List.count_append, count_flatten_items items hitems,
      List.count_eq_zero.2 hrest]
    rfl
  by_cases hr : rest = []
  · subst hr
    simp only [List.append_nil] at hjoin
    refine ⟨items, by unfold splitItems; rw [hrun]; simp, hmono, hitems, ?_, ?_, ?_⟩
    · by_cases hi : items = []
      · subst hi
        simp at hjoin
        simp [hjoin, List.intercalate]
      · have hj : foodList.data = List.intercalate [','] (items.map String.data) ++ [','] := by
          rw [hjoin, ← flatten_map_append_sep [','] (items.map String.data) (by simpa using hi)]
          simp [List.map_map, Function.comp_def]
        rw [hj]
        simp
    · rw [hcount]
      by_cases hi : items = []
      · subst hi
        simp at hjoin
        simp [hjoin]
      · have hlast : foodList.data.getLast? = some ',' := by
          rw [hjoin, ← List.dropLast_append_getLast hi]
          simp
        simp [hlast]
    · intro hempty
      subst hempty
      have : items.length = 0 := by rw [← hcount]; rfl
      exact List.length_eq_zero.1 this
  · have hlast : foodList.data.getLast? ≠ some ',' := by
      intro h
      rw [hjoin, List.getLast?_append] at h
      obtain ⟨c, hc⟩ : ∃ c, rest.getLast? = some c := by
        cases hh : rest.getLast? with
        | none => exact absurd (List.getLast?_eq_none_iff.1 hh) hr
        | some c => exact ⟨c, rfl⟩
      rw [hc] at h
      simp only [Option.or_some, Option.some.injEq] at h
      subst h
      exact hrest (List.mem_of_getLast?_eq_some hc)
    have hne : foodList.data ≠ [] := by
      rw [hjoin]
      simp [hr]
    refine ⟨items ++ [String.mk rest], by unfold splitItems; rw [hrun]; simp [hr], hmono,
      ?_, ?_, ?_, ?_⟩
    · intro item hitem
      rcases List.mem_append.1 hitem with h | h
      · exact hitems item h
      · rw [List.mem_singleton.1 h]
        exact hrest
    · rw [if_neg hlast, List.map_append, List.map_cons, List.map_nil, intercalate_concat]
      rw [hjoin]
      simp [List.map_map, Function.comp_def]
    · rw [hcount]
      simp [hlast, hne]
    · intro hempty
      subst hempty
      exact absurd rfl hne

/-- C17. An item entered with a space before or after it does not match the catalog: for
every menu key `k` neither `" " ++ k` nor `k ++ " "` is a menu key; the line
`Steak, Burger` is split into `Steak` and ` Burger`, the second is reported unavailable,
and the order enqueued has `totalCost` 25 and `maxPrepTime` 30. -/
theorem takeOrder_spaced_item (rand : Nat → Nat) (s : OrderManager) (customerName : String)
    (hmenu : s.menu = initialMenu) :
    (∀ p ∈ initialMenu,
      mapFind initialMenu (" " ++ p.1) = none ∧ mapFind initialMenu (p.1 ++ " ") = none) ∧
    splitItems "Steak, Burger" = some ["Steak", " Burger"] ∧
    ∃ s', takeOrder rand s customerName "Steak, Burger" = some s' ∧
      s'.customerPriorityQueue =
        pqPush s.customerPriorityQueue ((getCustomerId rand s customerName).1, (25, 30)) ∧
      s'.cout = (getCustomerId rand s customerName).2.cout ++
        ["Order placed for customer " ++ customerName ++ ": Steak ($25, 30 mins).\n",
         "Menu item  Burger is unavailable.\n"] := by
  have hsplit : splitItems "Steak, Burger" = some ["Steak", " Burger"] := by decide
  have htotals : orderTotals initialMenu ["Steak", " Burger"] = (25, 30) := by decide
  have hsteak : mapFind initialMenu "Steak" = some (25, 30) := by decide
  have hburger : mapFind initialMenu " Burger" = none := by decide
  have h25 : toString (25 : Int) = "25" := by decide
  have h30 : toString (30 : Int) = "30" := by decide
  refine ⟨by decide, hsplit, processCustomer rand s customerName ["Steak", " Burger"], ?_, ?_, ?_⟩
  · simp only [takeOrder, hsplit, Option.map_some']
  · rw [processCustomer_eq, hmenu, htotals]
  · rw [processCustomer_eq, hmenu]
    have htail : ": " ++ ("Steak" ++ (" ($" ++ ("25" ++ (", " ++ ("30" ++ " mins).\n"))))) =
        ": Steak ($25, 30 mins).\n" := by decide
    have hnotice : "Menu item " ++ (" Burger" ++ " is unavailable.\n") =
        "Menu item  Burger is unavailable.\n" := by decide
    simp only [List.map_cons, List.map_nil, itemNotice, hsteak, hburger, h25, h30,
      String.append_assoc, htail, hnotice]

/-- C17, at a fresh manager, the customer Alice and a random source returning 0. -/
theorem takeOrder_spaced_item_witness :
    (OrderManager.init none true).menu = initialMenu ∧
    (takeOrder (fun _ => 0) (OrderManager.init none true) "Alice" "Steak, Burger").map
        (fun s' => (s'.customerPriorityQueue, s'.cout)) =
      some ([(1000, (25, 30))],
        ["Welcome new customer Alice! Your unique ID: 1000\n",
         "Order placed for customer Alice: Steak ($25, 30 mins).\n",
         "Menu item  Burger is unavailable.\n"]) ∧
    ∃ s', takeOrder (fun _ => 0) (OrderManager.init none true) "Alice" "Steak, Burger" =
        some s' ∧
      s'.customerPriorityQueue =
        pqPush (OrderManager.init none true).customerPriorityQueue
          ((getCustomerId (fun _ => 0) (OrderManager.init none true) "Alice").1, (25, 30)) ∧
      s'.cout = (getCustomerId (fun _ => 0) (OrderManager.init none true) "Alice").2.cout ++
        ["Order placed for customer " ++ "Alice" ++ ": Steak ($25, 30 mins).\n",
         "Menu item  Burger is unavailable.\n"] :=
  ⟨rfl, by decide,
    (takeOrder_spaced_item (fun _ => 0) (OrderManager.init none true) "Alice" rfl).2.2⟩

end Scheduler
